import Mathlib

/-!
Verification development for the Dispatcharr EPG Refresh Scheduler plugin
(`epg_refresh_scheduler/plugin.py`).

The plugin's core is embedded shallowly:

* cron expressions are `List Char` (the `.data` of a Python string);
* Python's `str.strip().split()` is `words` (split on runs of whitespace,
  dropping empty fields; `strip` is redundant under this splitting);
* the persisted Celery-Beat `PeriodicTask` store is a function from task
  name (a `List Char` key) to `Option Task`;
* the timezone conversion (`pytz` lookup + `datetime.astimezone`) is an
  abstract converter `Conv`; a `none` result models the `except` branch of
  the source (lookup failure or any conversion error);
* the plugin's settings blob is an association list from keys to values
  that are either JSON strings or booleans (`SVal`), matching what the
  Dispatcharr settings form delivers.

The in-memory `self.scheduled_tasks` dictionary of the plugin is process
state that shadows the persisted store and is not observed by any claim;
it is omitted from the embedding.
-/

namespace EpgRefresh

/-! ## Characters, fields, splitting -/

/-- Whitespace, as used by Python `str.split()` for the inputs reachable
here (cron fields admit only ASCII, so the exotic Unicode spaces that
Python would also split on cannot occur inside fields). -/
def isWs (c : Char) : Bool :=
  c.isWhitespace

/-- Worker for `words`: `acc` holds the current (reversed) field. -/
def wordsAcc : List Char → List Char → List (List Char)
  | acc, [] => if acc.isEmpty then [] else [acc.reverse]
  | acc, c :: cs =>
      if isWs c then
        if acc.isEmpty then wordsAcc [] cs else acc.reverse :: wordsAcc [] cs
      else
        wordsAcc (c :: acc) cs

/-- Python `expr.strip().split()`: split on runs of whitespace, never
producing empty fields. -/
def words (s : List Char) : List (List Char) :=
  wordsAcc [] s

/-- Python `' '.join(parts)`. -/
def joinWs : List (List Char) → List Char
  | [] => []
  | [w] => w
  | w :: x :: xs => w ++ ' ' :: joinWs (x :: xs)

/-- The restricted cron character set of plugin.py line 485: the decimal
digits together with the four symbols star, slash, hyphen and comma. -/
def validChar (c : Char) : Bool :=
  c.isDigit || c = '*' || c = '/' || c = '-' || c = ','

/-- Python `str.isdigit()` on the reachable (ASCII) fields: non-empty and
all decimal digits. -/
def isDigitF (w : List Char) : Bool :=
  !w.isEmpty && w.all Char.isDigit

/-- Python `int(...)` on an all-digit field. -/
def valF (w : List Char) : Nat :=
  w.foldl (fun n c => 10 * n + (c.toNat - 48)) 0

/-- One range check of `_validate_cron` (plugin.py lines 494-508): a field
is checked against its domain only when it is entirely numeric. -/
def rangeOk (w : List Char) (lo hi : Nat) : Bool :=
  !isDigitF w || (decide (lo ≤ valF w) && decide (valF w ≤ hi))

/-- Embedding of `_validate_cron` (plugin.py lines 474-518): exactly five fields, only
characters from the restricted set, and simple digit fields within their
domain ranges.  The `try/except ValueError` of the source is dead code
(`int` cannot fail on an all-digit string) and has no counterpart here. -/
def validateCron (expr : List Char) : Bool :=
  match words expr with
  | [minute, hour, dayOfMonth, monthOfYear, dayOfWeek] =>
      ([minute, hour, dayOfMonth, monthOfYear, dayOfWeek].all fun p => p.all validChar) &&
      rangeOk minute 0 59 &&
      rangeOk hour 0 23 &&
      rangeOk dayOfMonth 1 31 &&
      rangeOk monthOfYear 1 12 &&
      rangeOk dayOfWeek 0 6
  | _ => false

/-- String-level entry point of `_validate_cron`. -/
def validateCronS (expr : String) : Bool :=
  validateCron expr.data

/-- Python `part.startswith('0/')`. -/
def startsWith0Slash (w : List Char) : Bool :=
  match w with
  | c1 :: c2 :: _ => c1 = '0' && c2 = '/'
  | _ => false

/-- Field rewrite of `_normalize_cron` (plugin.py lines 527-532):
`part.startswith('0/')` becomes `'*' + part[1:]`. -/
def normField (w : List Char) : List Char :=
  if startsWith0Slash w then '*' :: w.drop 1 else w

/-- Embedding of `_normalize_cron` (plugin.py lines 520-538): rewrite `0/X` fields to
`*/X` and re-join with single spaces; inputs that do not split into five
fields are returned untouched. -/
def normalizeCron (expr : List Char) : List Char :=
  let parts := words expr
  if parts.length = 5 then joinWs (parts.map normField) else expr

/-- String-level entry point of `_normalize_cron`. -/
def normalizeCronS (expr : String) : String :=
  String.mk (normalizeCron expr.data)

/-- Python `str.strip()` (used on raw schedule strings from settings). -/
def trimWs (cs : List Char) : List Char :=
  ((cs.dropWhile isWs).reverse.dropWhile isWs).reverse

/-! ## Persisted schedule store (django-celery-beat `PeriodicTask`) -/

/-- The observable part of a `PeriodicTask` row the plugin writes: its
crontab (five fields, stored in UTC), the downstream task reference, its
JSON args, the enabled flag and the free-text description. -/
structure Task where
  crontab : List (List Char)
  action : String
  args : List Nat
  enabled : Bool
  description : String
deriving DecidableEq

/-- Keys are task names; the store maps each name to at most one task
(`PeriodicTask.name` is unique). -/
abbrev Key := List Char

abbrev Store := Key → Option Task

/-- Embeds `PeriodicTask.objects.update_or_create(name=..., defaults=...)`:
replace or insert, returning the `created` flag. -/
def upsert (k : Key) (t : Task) (st : Store) : Store × Bool :=
  (fun k2 => if k2 = k then some t else st k2, (st k).isNone)

/-- Embeds `PeriodicTask.objects.filter(name=...).delete()`: remove the row and
return the deleted count (`0` or `1` for a unique name). -/
def deleteTask (k : Key) (st : Store) : Store × Nat :=
  (fun k2 => if k2 = k then none else st k2, if (st k).isSome then 1 else 0)

/-- Task name `f"epg_refresh_scheduler_m3u_{m3u.id}"`. -/
def m3uKey (id : Nat) : Key :=
  "epg_refresh_scheduler_m3u_".data ++ (Nat.repr id).data

/-- Task name `f"epg_refresh_scheduler_epg_{epg.id}"`. -/
def epgKey (id : Nat) : Key :=
  "epg_refresh_scheduler_epg_".data ++ (Nat.repr id).data

/-- A source from the external catalog (an M3U account or an EPG source):
the plugin reads only its `id` and `name`. -/
structure Source where
  id : Nat
  name : String
deriving DecidableEq

/-! ## Configuration blob -/

/-- A settings value: the Dispatcharr form delivers JSON strings or
booleans.  (Other JSON types never reach the keys the plugin reads.) -/
inductive SVal where
  | str (s : String)
  | bool (b : Bool)
deriving DecidableEq

/-- Settings are a flat key-value blob; keys are embedded as `List Char`
like all other reasoned-about strings. -/
abbrev Config := List (Key × SVal)

/-- Python `settings.get(k)` (first binding wins, as in a `dict`). -/
def cfgGet (cfg : Config) (k : Key) : Option SVal :=
  (cfg.find? fun p => p.1 = k).map (·.2)

/-- Python `settings.get(k, d)`. -/
def cfgGetD (cfg : Config) (k : Key) (d : SVal) : SVal :=
  (cfgGet cfg k).getD d

/-- Python truthiness of a settings value, as used directly by
`_sync_schedules` (`if enabled and schedule:`): a string is truthy
exactly when non-empty. -/
def truthy (v : SVal) : Bool :=
  match v with
  | .bool b => b
  | .str s => s != ""

/-- Python `str.lower()` on the ASCII range (the truthy encodings are
ASCII). -/
def asciiLower (s : String) : String :=
  String.mk (s.data.map fun c =>
    if 'A' ≤ c ∧ c ≤ 'Z' then Char.ofNat (c.toNat + 32) else c)

/-- The enabled decode of `save_settings` (plugin.py lines 607-609 and
634-636): booleans pass through, strings are compared lowercased against
the truthy set. -/
def decodeEnabledSave (v : SVal) : Bool :=
  match v with
  | .bool b => b
  | .str s => (["true", "1", "yes", "on"] : List String).contains (asciiLower s)

/-- Embeds `settings.get(schedule_key, "").strip()`: the schedule keys carry
strings (a boolean there would crash the Python, which cannot happen from
the text form). -/
def schedOf (cfg : Config) (k : Key) : List Char :=
  match cfgGet cfg k with
  | some (.str s) => trimWs s.data
  | _ => []

/-- Embeds `settings.get("timezone", "US/Central")`; a non-string value falls
back to the default (it could not name a timezone). -/
def tzOf (cfg : Config) : String :=
  match cfgGet cfg "timezone".data with
  | some (.str s) => s
  | _ => "US/Central"

def m3uEnabledKey (id : Nat) : Key :=
  "m3u_".data ++ (Nat.repr id).data ++ "_enabled".data

def m3uSchedKey (id : Nat) : Key :=
  "m3u_".data ++ (Nat.repr id).data ++ "_schedule".data

def epgEnabledKey (id : Nat) : Key :=
  "epg_".data ++ (Nat.repr id).data ++ "_enabled".data

def epgSchedKey (id : Nat) : Key :=
  "epg_".data ++ (Nat.repr id).data ++ "_schedule".data

/-! ## Timezone conversion -/

/-- The abstract timezone converter: given the user timezone name and the
literal hour and minute, produce the UTC hour and minute, or `none` when
the lookup or the conversion raises (the `except` branch of the source).
The real conversion goes through "today" in the named zone, so the result
is a function of the moment of the call; a reconciliation run fixes one
such function. -/
abbrev Conv := String → Nat → Nat → Option (Nat × Nat)

/-- The conversion block shared by `_create_or_update_epg_schedule`
(plugin.py lines 306-341) and `_create_or_update_m3u_schedule` (lines
405-440): convert only when the timezone is not `"UTC"` and both the
minute and the hour field are simple digit literals; on a conversion
failure keep the original fields. -/
def convMinHour (conv : Conv) (tz : String) (minute hour : List Char) :
    List Char × List Char :=
  if tz != "UTC" && isDigitF minute && isDigitF hour then
    match conv tz (valF hour) (valF minute) with
    | some (h2, m2) => ((Nat.repr m2).data, (Nat.repr h2).data)
    | none => (minute, hour)
  else
    (minute, hour)

/-- The body shared by the two create-or-update methods, parameterized by
the task name, action reference, args and description that differ between
the EPG and the M3U variant.  Returns the new store and, when an upsert
took place, its `created` flag.  An invalid expression (or one that does
not split into five fields, which validation already excludes) leaves the
store untouched. -/
def createOrUpdateCore (conv : Conv) (tz : String) (cronExpr : List Char)
    (taskName : Key) (actionRef : String) (args : List Nat) (descr : String)
    (st : Store) : Store × Option Bool :=
  if validateCron cronExpr then
    match words (normalizeCron cronExpr) with
    | [minute, hour, dayOfMonth, monthOfYear, dayOfWeek] =>
        let mh := convMinHour conv tz minute hour
        let t : Task :=
          { crontab := [mh.1, mh.2, dayOfMonth, monthOfYear, dayOfWeek]
            action := actionRef
            args := args
            enabled := true
            description := descr }
        let r := upsert taskName t st
        (r.1, some r.2)
    | _ => (st, none)
  else
    (st, none)

/-- Embedding of `_create_or_update_epg_schedule` (plugin.py lines 276-373): the fixed
action `apps.epg.tasks.refresh_all_epg_data` with empty args. -/
def createOrUpdateEpg (conv : Conv) (epg : Source) (cronExpr : List Char)
    (tz : String) (st : Store) : Store × Option Bool :=
  createOrUpdateCore conv tz cronExpr (epgKey epg.id)
    "apps.epg.tasks.refresh_all_epg_data" []
    ("Refresh triggered by: " ++ epg.name ++ " (" ++ tz ++ ")") st

/-- Embedding of `_create_or_update_m3u_schedule` (plugin.py lines 375-472): the fixed
action `apps.m3u.tasks.refresh_single_m3u_account` parameterized by the
account id. -/
def createOrUpdateM3u (conv : Conv) (m3u : Source) (cronExpr : List Char)
    (tz : String) (st : Store) : Store × Option Bool :=
  createOrUpdateCore conv tz cronExpr (m3uKey m3u.id)
    "apps.m3u.tasks.refresh_single_m3u_account" [m3u.id]
    ("M3U refresh triggered by scheduler: " ++ m3u.name ++ " (" ++ tz ++ ")") st

/-- Embedding of `_delete_epg_schedule` (plugin.py lines 554-568). -/
def deleteEpg (id : Nat) (st : Store) : Store × Nat :=
  deleteTask (epgKey id) st

/-- Embedding of `_delete_m3u_schedule` (plugin.py lines 570-585). -/
def deleteM3u (id : Nat) (st : Store) : Store × Nat :=
  deleteTask (m3uKey id) st

/-! ## Action results and messages -/

structure ActionResult where
  success : Bool
  message : String
deriving DecidableEq

def joinComma (l : List String) : String :=
  String.intercalate ", " l

def noSavedSettingsMsg : String :=
  "⚠️ No saved settings found. Please configure and save settings first."

def invalidM3uMsg (name : String) (cron : List Char) : String :=
  "Invalid cron for M3U \x27" ++ name ++ "\x27: " ++ String.mk cron

def invalidEpgMsg (name : String) (cron : List Char) : String :=
  "Invalid cron for EPG \x27" ++ name ++ "\x27: " ++ String.mk cron

/-- The success message of `save_settings` (plugin.py lines 655-664). -/
def saveMessage (tz : String) (m3uSyn m3uRem epgSyn epgRem : List String) : String :=
  String.intercalate "\n"
    (["✅ Settings saved! (Timezone: " ++ tz ++ ")"]
      ++ (if m3uSyn.isEmpty then [] else
            ["📺 M3U Activated (" ++ Nat.repr m3uSyn.length ++ "): " ++ joinComma m3uSyn])
      ++ (if m3uRem.isEmpty then [] else
            ["📺 M3U Deactivated (" ++ Nat.repr m3uRem.length ++ "): " ++ joinComma m3uRem])
      ++ (if epgSyn.isEmpty then [] else
            ["📅 EPG Activated (" ++ Nat.repr epgSyn.length ++ "): " ++ joinComma epgSyn])
      ++ (if epgRem.isEmpty then [] else
            ["📅 EPG Deactivated (" ++ Nat.repr epgRem.length ++ "): " ++ joinComma epgRem]))

/-- The success message of `_sync_schedules` (plugin.py lines 764-776). -/
def syncMessage (tz : String) (m3uSyn m3uRem epgSyn epgRem : List String) : String :=
  let lines :=
    (if m3uSyn.isEmpty then [] else
      ["📺 M3U Synced (" ++ Nat.repr m3uSyn.length ++ ", " ++ tz ++ "): " ++ joinComma m3uSyn])
    ++ (if m3uRem.isEmpty then [] else
      ["📺 M3U Removed (" ++ Nat.repr m3uRem.length ++ "): " ++ joinComma m3uRem])
    ++ (if epgSyn.isEmpty then [] else
      ["📅 EPG Synced (" ++ Nat.repr epgSyn.length ++ ", " ++ tz ++ "): " ++ joinComma epgSyn])
    ++ (if epgRem.isEmpty then [] else
      ["📅 EPG Removed (" ++ Nat.repr epgRem.length ++ "): " ++ joinComma epgRem])
  String.intercalate "\n" (if lines.isEmpty then ["ℹ️ No schedules configured"] else lines)

/-! ## Sync (`_sync_schedules`, plugin.py lines 699-780) -/

/-- The evolving state of a sync run: the store plus the observations a
run produces (the count of upserts that created a new row, and the name
lists feeding the summary message). -/
structure SyncAcc where
  store : Store
  created : Nat
  synced : List String
  removed : List String

/-- One M3U iteration of `_sync_schedules` (plugin.py lines 734-746):
raw truthiness on the enabled value, skip on invalid cron, delete in the
else branch. -/
def syncM3uStep (conv : Conv) (cfg : Config) (tz : String)
    (acc : SyncAcc) (m3u : Source) : SyncAcc :=
  let enabled := truthy (cfgGetD cfg (m3uEnabledKey m3u.id) (.bool false))
  let sched := schedOf cfg (m3uSchedKey m3u.id)
  if enabled && !sched.isEmpty then
    if validateCron sched then
      let r := createOrUpdateM3u conv m3u sched tz acc.store
      { acc with
          store := r.1
          created := acc.created + (if r.2 = some true then 1 else 0)
          synced := acc.synced ++ [m3u.name] }
    else
      acc
  else
    { acc with
        store := (deleteM3u m3u.id acc.store).1
        removed := acc.removed ++ [m3u.name] }

/-- One EPG iteration of `_sync_schedules` (plugin.py lines 750-762). -/
def syncEpgStep (conv : Conv) (cfg : Config) (tz : String)
    (acc : SyncAcc) (epg : Source) : SyncAcc :=
  let enabled := truthy (cfgGetD cfg (epgEnabledKey epg.id) (.bool false))
  let sched := schedOf cfg (epgSchedKey epg.id)
  if enabled && !sched.isEmpty then
    if validateCron sched then
      let r := createOrUpdateEpg conv epg sched tz acc.store
      { acc with
          store := r.1
          created := acc.created + (if r.2 = some true then 1 else 0)
          synced := acc.synced ++ [epg.name] }
    else
      acc
  else
    { acc with
        store := (deleteEpg epg.id acc.store).1
        removed := acc.removed ++ [epg.name] }

/-- The body of `_sync_schedules` (plugin.py lines 699-780) once the
effective settings blob is fixed: fail outright when it is empty,
otherwise run both catalog loops. -/
def syncSchedulesCore (conv : Conv) (m3us epgs : List Source)
    (cfg : Config) (st : Store) : ActionResult × SyncAcc :=
  if cfg.isEmpty then
    (⟨false, noSavedSettingsMsg⟩, ⟨st, 0, [], []⟩)
  else
    let acc1 := m3us.foldl (syncM3uStep conv cfg (tzOf cfg)) ⟨st, 0, [], []⟩
    let acc2 := epgs.foldl (syncEpgStep conv cfg (tzOf cfg))
      { acc1 with synced := [], removed := [] }
    (⟨true, syncMessage (tzOf cfg) acc1.synced acc1.removed acc2.synced acc2.removed⟩,
      { store := acc2.store
        created := acc2.created
        synced := acc1.synced ++ acc2.synced
        removed := acc1.removed ++ acc2.removed })

/-- Embedding of `_sync_schedules` (plugin.py lines 699-780).  `saved` is the settings
blob persisted by Dispatcharr, loaded as a fallback when the `settings`
passed in are empty; when both are empty the action fails outright
without touching the store. -/
def syncSchedules (conv : Conv) (m3us epgs : List Source)
    (settings saved : Config) (st : Store) : ActionResult × SyncAcc :=
  syncSchedulesCore conv m3us epgs
    (if settings.isEmpty then saved else settings) st

/-! ## Save (`save_settings`, plugin.py lines 587-676) -/

/-- One M3U iteration of `save_settings` (plugin.py lines 603-626):
string enabled values go through the truthy-set decode; an invalid cron
on an enabled source aborts the whole call with a per-source error,
keeping the store mutations already performed. -/
def saveM3uStep (conv : Conv) (cfg : Config) (tz : String) (m3u : Source)
    (st : Store) (syn rem : List String) :
    Except (ActionResult × Store) (Store × List String × List String) :=
  let isEnabled := decodeEnabledSave (cfgGetD cfg (m3uEnabledKey m3u.id) (.bool false))
  let cron := schedOf cfg (m3uSchedKey m3u.id)
  if isEnabled && !cron.isEmpty then
    if validateCron cron then
      .ok ((createOrUpdateM3u conv m3u cron tz st).1, syn ++ [m3u.name], rem)
    else
      .error (⟨false, invalidM3uMsg m3u.name cron⟩, st)
  else
    .ok ((deleteM3u m3u.id st).1, syn,
      if isEnabled then rem else rem ++ [m3u.name])

/-- One EPG iteration of `save_settings` (plugin.py lines 630-653). -/
def saveEpgStep (conv : Conv) (cfg : Config) (tz : String) (epg : Source)
    (st : Store) (syn rem : List String) :
    Except (ActionResult × Store) (Store × List String × List String) :=
  let isEnabled := decodeEnabledSave (cfgGetD cfg (epgEnabledKey epg.id) (.bool false))
  let cron := schedOf cfg (epgSchedKey epg.id)
  if isEnabled && !cron.isEmpty then
    if validateCron cron then
      .ok ((createOrUpdateEpg conv epg cron tz st).1, syn ++ [epg.name], rem)
    else
      .error (⟨false, invalidEpgMsg epg.name cron⟩, st)
  else
    .ok ((deleteEpg epg.id st).1, syn,
      if isEnabled then rem else rem ++ [epg.name])

/-- The M3U loop of `save_settings`: the first error return propagates
(the `return` statement inside the Python loop). -/
def saveM3uLoop (conv : Conv) (cfg : Config) (tz : String) :
    List Source → Store → List String → List String →
    Except (ActionResult × Store) (Store × List String × List String)
  | [], st, syn, rem => .ok (st, syn, rem)
  | m3u :: rest, st, syn, rem =>
      match saveM3uStep conv cfg tz m3u st syn rem with
      | .error e => .error e
      | .ok (st1, syn1, rem1) => saveM3uLoop conv cfg tz rest st1 syn1 rem1

/-- The EPG loop of `save_settings`. -/
def saveEpgLoop (conv : Conv) (cfg : Config) (tz : String) :
    List Source → Store → List String → List String →
    Except (ActionResult × Store) (Store × List String × List String)
  | [], st, syn, rem => .ok (st, syn, rem)
  | epg :: rest, st, syn, rem =>
      match saveEpgStep conv cfg tz epg st syn rem with
      | .error e => .error e
      | .ok (st1, syn1, rem1) => saveEpgLoop conv cfg tz rest st1 syn1 rem1

/-- Embedding of `save_settings` (plugin.py lines 587-676): process all M3U accounts,
then all EPG sources; the first validation failure among enabled sources
aborts the whole call. -/
def saveSettings (conv : Conv) (m3us epgs : List Source)
    (settings : Config) (st : Store) : ActionResult × Store :=
  match saveM3uLoop conv settings (tzOf settings) m3us st [] [] with
  | .error e => e
  | .ok (st1, m3uSyn, m3uRem) =>
      match saveEpgLoop conv settings (tzOf settings) epgs st1 [] [] with
      | .error e => e
      | .ok (st2, epgSyn, epgRem) =>
          (⟨true, saveMessage (tzOf settings) m3uSyn m3uRem epgSyn epgRem⟩, st2)

/-! ## Bulk teardown (`_cleanup_all_schedules`, plugin.py lines 899-936) -/

/-- One deletion of the cleanup action: delete the task named for this
catalog source, counting and naming it when a row was actually removed. -/
def cleanupStep (mk : Nat → Key) (label : String)
    (acc : Store × Nat × List String) (s : Source) : Store × Nat × List String :=
  let r := deleteTask (mk s.id) acc.1
  if r.2 > 0 then
    (r.1, acc.2.1 + r.2, acc.2.2 ++ [label ++ s.name])
  else
    (r.1, acc.2.1, acc.2.2)

/-- Embedding of `_cleanup_all_schedules` (plugin.py lines 899-936): walk the current
M3U catalog, then the current EPG catalog, deleting the task derived from
each listed source. -/
def cleanupAllSchedules (m3us epgs : List Source) (st : Store) :
    ActionResult × Store × Nat :=
  let a1 := m3us.foldl (cleanupStep m3uKey "M3U - ") (st, 0, [])
  let a2 := epgs.foldl (cleanupStep epgKey "EPG - ") a1
  let msg :=
    if a2.2.1 > 0 then
      "✅ Removed " ++ Nat.repr a2.2.1 ++ " schedule(s):\n\n" ++
        String.intercalate "\n" (a2.2.2.map fun n => "  • " ++ n)
    else
      "ℹ️ No schedules found to remove"
  (⟨true, msg⟩, a2.1, a2.2.1)

/-! ## Store operations as data (for relating reconciliation runs)

Each catalog source contributes one store operation per sync pass: an
upsert of its keyed descriptor, a delete of its key, or nothing (the
skip of an invalid schedule).  The per-source operation depends only on
the configuration, the timezone, the converter and the source — never on
the store — which is what the idempotence reasoning exploits. -/

inductive Op where
  | ups (k : Key) (t : Task)
  | del (k : Key)
  | skip
deriving DecidableEq

def keyOf : Op → Option Key
  | .ups k _ => some k
  | .del k => some k
  | .skip => none

def isUps : Op → Bool
  | .ups _ _ => true
  | _ => false

def applyOp : Op → Store → Store
  | .ups k t, st => fun k2 => if k2 = k then some t else st k2
  | .del k, st => fun k2 => if k2 = k then none else st k2
  | .skip, st => st

def applyOps : List Op → Store → Store
  | [], st => st
  | o :: os, st => applyOps os (applyOp o st)

/-- The `created` observation of one operation on a store. -/
def createdInc : Op → Store → Nat
  | .ups k _, st => if (st k).isNone then 1 else 0
  | _, _ => 0

/-- The total `created` count of a run of operations. -/
def createdCount : List Op → Store → Nat
  | [], _ => 0
  | o :: os, st => createdInc o st + createdCount os (applyOp o st)

/-- The last operation of a run that writes a given key. -/
def lastWrite : List Op → Key → Option Op
  | [], _ => none
  | o :: os, k =>
      match lastWrite os k with
      | some o2 => some o2
      | none => if keyOf o = some k then some o else none

def opResult : Option Op → Option Task → Option Task
  | some (.ups _ t), _ => some t
  | some (.del _), _ => none
  | some .skip, v => v
  | none, v => v

/-- The task a source's upsert persists, as a function of the inputs
(the upsert of `createOrUpdateCore` under a valid expression). -/
def mkTaskOf (conv : Conv) (tz : String) (cron : List Char) (act : String)
    (args : List Nat) (descr : String) : Task :=
  match words (normalizeCron cron) with
  | [mi, hr, dom, moy, dow] =>
      { crontab := [(convMinHour conv tz mi hr).1, (convMinHour conv tz mi hr).2,
          dom, moy, dow]
        action := act, args := args, enabled := true, description := descr }
  | _ => { crontab := [], action := act, args := args, enabled := true,
           description := descr }

def m3uTask (conv : Conv) (tz : String) (s : Source) (cron : List Char) : Task :=
  mkTaskOf conv tz cron "apps.m3u.tasks.refresh_single_m3u_account" [s.id]
    ("M3U refresh triggered by scheduler: " ++ s.name ++ " (" ++ tz ++ ")")

def epgTask (conv : Conv) (tz : String) (s : Source) (cron : List Char) : Task :=
  mkTaskOf conv tz cron "apps.epg.tasks.refresh_all_epg_data" []
    ("Refresh triggered by: " ++ s.name ++ " (" ++ tz ++ ")")

/-- The store operation one M3U source contributes to a sync pass. -/
def m3uOp (conv : Conv) (cfg : Config) (tz : String) (s : Source) : Op :=
  if truthy (cfgGetD cfg (m3uEnabledKey s.id) (.bool false)) &&
      !(schedOf cfg (m3uSchedKey s.id)).isEmpty then
    if validateCron (schedOf cfg (m3uSchedKey s.id)) then
      .ups (m3uKey s.id) (m3uTask conv tz s (schedOf cfg (m3uSchedKey s.id)))
    else .skip
  else .del (m3uKey s.id)

/-- The store operation one EPG source contributes to a sync pass. -/
def epgOp (conv : Conv) (cfg : Config) (tz : String) (s : Source) : Op :=
  if truthy (cfgGetD cfg (epgEnabledKey s.id) (.bool false)) &&
      !(schedOf cfg (epgSchedKey s.id)).isEmpty then
    if validateCron (schedOf cfg (epgSchedKey s.id)) then
      .ups (epgKey s.id) (epgTask conv tz s (schedOf cfg (epgSchedKey s.id)))
    else .skip
  else .del (epgKey s.id)

/-- All operations of one sync pass, in execution order. -/
def syncOps (conv : Conv) (cfg : Config) (tz : String)
    (m3us epgs : List Source) : List Op :=
  m3us.map (m3uOp conv cfg tz) ++ epgs.map (epgOp conv cfg tz)

/-- No delete shares a key with an upsert. -/
def Consistent (ops : List Op) : Prop :=
  ∀ k t, Op.ups k t ∈ ops → ∀ o ∈ ops, keyOf o = some k → isUps o = true

/-! ## Lemmas about splitting and joining -/

theorem wordsAcc_nil (acc : List Char) :
    wordsAcc acc [] = if acc.isEmpty then [] else [acc.reverse] := rfl

theorem wordsAcc_cons (acc : List Char) (c : Char) (cs : List Char) :
    wordsAcc acc (c :: cs) =
      if isWs c then
        if acc.isEmpty then wordsAcc [] cs else acc.reverse :: wordsAcc [] cs
      else wordsAcc (c :: acc) cs := rfl

/-- Every field produced by `wordsAcc` is non-empty and whitespace-free
(provided the accumulator is). -/
theorem mem_wordsAcc {w : List Char} :
    ∀ {s acc : List Char}, (∀ c ∈ acc, isWs c = false) → w ∈ wordsAcc acc s →
      w ≠ [] ∧ ∀ c ∈ w, isWs c = false := by
  intro s
  induction s with
  | nil =>
      intro acc hacc hw
      rw [wordsAcc_nil] at hw
      by_cases hae : acc.isEmpty
      · simp [hae] at hw
      · simp [hae] at hw
        subst hw
        refine ⟨?_, ?_⟩
        · simp only [ne_eq, List.reverse_eq_nil_iff]
          intro h
          simp [h] at hae
        · intro c hc
          exact hacc c (List.mem_reverse.mp hc)
  | cons c cs ih =>
      intro acc hacc hw
      rw [wordsAcc_cons] at hw
      by_cases hws : isWs c
      · simp only [hws, if_true] at hw
        by_cases hae : acc.isEmpty
        · simp only [hae, if_true] at hw
          exact ih (by simp) hw
        · simp only [hae, if_false] at hw
          rcases List.mem_cons.mp hw with h | h
          · subst h
            refine ⟨?_, ?_⟩
            · simp only [ne_eq, List.reverse_eq_nil_iff]
              intro h
              simp [h] at hae
            · intro d hd
              exact hacc d (List.mem_reverse.mp hd)
          · exact ih (by simp) h
      · simp only [hws, if_false] at hw
        refine ih ?_ hw
        intro d hd
        rcases List.mem_cons.mp hd with h | h
        · subst h
          exact Bool.eq_false_iff.mpr hws
        · exact hacc d h

/-- Every field of `words` is non-empty and whitespace-free. -/
theorem mem_words {s w : List Char} (hw : w ∈ words s) :
    w ≠ [] ∧ ∀ c ∈ w, isWs c = false :=
  mem_wordsAcc (by simp) hw

/-- Consuming a whitespace-free chunk just moves it into the
accumulator. -/
theorem wordsAcc_append_nonws {w : List Char} (hnw : ∀ c ∈ w, isWs c = false) :
    ∀ acc t, wordsAcc acc (w ++ t) = wordsAcc (w.reverse ++ acc) t := by
  induction w with
  | nil => intro acc t; simp
  | cons c w ih =>
      intro acc t
      have hc : isWs c = false := hnw c (List.mem_cons_self c w)
      rw [List.cons_append, wordsAcc_cons, hc, if_neg (by simp)]
      rw [ih (fun d hd => hnw d (List.mem_cons_of_mem c hd)) (c :: acc) t]
      simp

/-- Splitting a single-space join of non-empty whitespace-free fields
recovers the fields. -/
theorem words_joinWs :
    ∀ parts : List (List Char),
      (∀ w ∈ parts, w ≠ [] ∧ ∀ c ∈ w, isWs c = false) →
      words (joinWs parts) = parts := by
  intro parts
  induction parts with
  | nil => intro _; rfl
  | cons w rest ih =>
      intro h
      obtain ⟨hne, hnw⟩ := h w (List.mem_cons_self w rest)
      have hrevne : ¬ w.reverse.isEmpty := by
        simp only [List.isEmpty_iff, List.reverse_eq_nil_iff]
        exact hne
      cases rest with
      | nil =>
          show words (joinWs [w]) = [w]
          have : joinWs [w] = w ++ [] := by simp [joinWs]
          rw [this]
          unfold words
          rw [wordsAcc_append_nonws hnw [] [], wordsAcc_nil]
          simp [hrevne]
      | cons x xs =>
          show words (joinWs (w :: x :: xs)) = w :: x :: xs
          have hj : joinWs (w :: x :: xs) = w ++ ' ' :: joinWs (x :: xs) := rfl
          rw [hj]
          unfold words
          rw [wordsAcc_append_nonws hnw [] (' ' :: joinWs (x :: xs)), wordsAcc_cons]
          have hsp : isWs ' ' = true := by decide
          rw [hsp, if_pos rfl, if_neg (by simpa using hrevne)]
          have := ih (fun u hu => h u (List.mem_cons_of_mem w hu))
          unfold words at this
          rw [this]
          simp

/-- Characterization of `startsWith0Slash`: the field is a zero, a slash and an
arbitrary remainder. -/
theorem startsWith0Slash_iff (w : List Char) :
    startsWith0Slash w = true ↔ ∃ rest, w = '0' :: '/' :: rest := by
  cases w with
  | nil => simp [startsWith0Slash]
  | cons c1 t =>
      cases t with
      | nil => simp [startsWith0Slash]
      | cons c2 rest =>
          simp only [startsWith0Slash, Bool.and_eq_true, decide_eq_true_eq]
          constructor
          · rintro ⟨h1, h2⟩
            exact ⟨rest, by rw [h1, h2]⟩
          · rintro ⟨r, hr⟩
            cases hr
            exact ⟨rfl, rfl⟩

/-- The two equations of `normField` in claim-level form. -/
theorem normField_eq (w : List Char) :
    ((∃ rest, w = '0' :: '/' :: rest) ∧ normField w = '*' :: w.drop 1) ∨
    ((¬ ∃ rest, w = '0' :: '/' :: rest) ∧ normField w = w) := by
  by_cases h : startsWith0Slash w = true
  · exact .inl ⟨(startsWith0Slash_iff w).mp h, by simp [normField, h]⟩
  · refine .inr ⟨fun hc => h ((startsWith0Slash_iff w).mpr hc), ?_⟩
    have hb : startsWith0Slash w = false := Bool.eq_false_iff.mpr h
    simp [normField, hb]

/-- The rewrite `normField` keeps fields non-empty and whitespace-free. -/
theorem normField_good {w : List Char} (hne : w ≠ [])
    (hnw : ∀ c ∈ w, isWs c = false) :
    normField w ≠ [] ∧ ∀ c ∈ normField w, isWs c = false := by
  rcases normField_eq w with ⟨⟨rest, hr⟩, he⟩ | ⟨_, he⟩
  · subst hr
    rw [he]
    refine ⟨by simp, ?_⟩
    intro c hc
    rcases List.mem_cons.mp hc with h | h
    · subst h; decide
    · exact hnw c (List.mem_cons_of_mem _ (by simpa using h))
  · rw [he]
    exact ⟨hne, hnw⟩

/-! ## Lemmas about validation and normalization -/

/-- Unfolding `validateCron` once the fields are known. -/
theorem validateCron_parts {e a b c d f : List Char}
    (hw : words e = [a, b, c, d, f]) :
    validateCron e =
      (([a, b, c, d, f].all fun p => p.all validChar) &&
        rangeOk a 0 59 && rangeOk b 0 23 && rangeOk c 1 31 &&
        rangeOk d 1 12 && rangeOk f 0 6) := by
  unfold validateCron
  rw [hw]

/-- A valid expression splits into exactly five fields. -/
theorem validateCron_words (e : List Char) (hv : validateCron e = true) :
    ∃ a b c d f, words e = [a, b, c, d, f] := by
  unfold validateCron at hv
  rcases hws : words e with _ | ⟨a, _ | ⟨b, _ | ⟨c, _ | ⟨d, _ | ⟨f, _ | ⟨g, t⟩⟩⟩⟩⟩⟩ <;>
    rw [hws] at hv <;> first
      | exact ⟨a, b, c, d, f, rfl⟩
      | simp at hv

/-- On a valid expression, normalization just maps `normField` over the
fields (and re-joins them with single spaces). -/
theorem words_normalizeCron {e : List Char} (hv : validateCron e = true) :
    words (normalizeCron e) = (words e).map normField := by
  obtain ⟨a, b, c, d, f, hw⟩ := validateCron_words e hv
  have hlen : (words e).length = 5 := by rw [hw]; rfl
  have hgood : ∀ w ∈ (words e).map normField, w ≠ [] ∧ ∀ ch ∈ w, isWs ch = false := by
    intro w hwm
    obtain ⟨u, hu, huw⟩ := List.mem_map.mp hwm
    obtain ⟨hne, hnw⟩ := mem_words hu
    subst huw
    exact normField_good hne hnw
  unfold normalizeCron
  simp only [hlen, if_pos rfl]
  exact words_joinWs _ hgood

/-- Unfolding lemma: `createOrUpdateCore` on a valid expression is exactly an upsert of the
normalized, possibly timezone-converted task. -/
theorem createOrUpdateCore_eq {conv : Conv} {tz : String} {e : List Char}
    {nm : Key} {act : String} {args : List Nat} {descr : String} {st : Store}
    {mi h dom moy dow : List Char}
    (hv : validateCron e = true)
    (hw : words (normalizeCron e) = [mi, h, dom, moy, dow]) :
    createOrUpdateCore conv tz e nm act args descr st =
      ((upsert nm
          { crontab := [(convMinHour conv tz mi h).1, (convMinHour conv tz mi h).2,
              dom, moy, dow]
            action := act, args := args, enabled := true, description := descr } st).1,
        some (st nm).isNone) := by
  unfold createOrUpdateCore
  rw [if_pos hv, hw]
  rfl

/-! ## C1: the validator contract -/

/-- Predicate `isDigitF` is Python `isdigit`: non-empty, all decimal digits. -/
theorem isDigitF_iff (w : List Char) :
    isDigitF w = true ↔ (w ≠ [] ∧ ∀ c ∈ w, c.isDigit = true) := by
  cases w with
  | nil => simp [isDigitF]
  | cons c cs => simp [isDigitF, List.all_eq_true]

/-- Predicate `validChar` spelled out as the claim's character set. -/
theorem validChar_iff (c : Char) :
    validChar c = true ↔
      (c.isDigit = true ∨ c = '*' ∨ c = '/' ∨ c = '-' ∨ c = ',') := by
  simp [validChar, Bool.or_eq_true, decide_eq_true_eq, or_assoc]

theorem rangeOk_imp {w : List Char} {lo hi : Nat} (h : rangeOk w lo hi = true)
    (hne : w ≠ []) (hdig : ∀ c ∈ w, c.isDigit = true) :
    lo ≤ valF w ∧ valF w ≤ hi := by
  have hd : isDigitF w = true := (isDigitF_iff w).mpr ⟨hne, hdig⟩
  simpa [rangeOk, hd, Bool.and_eq_true, decide_eq_true_eq] using h

theorem rangeOk_of {w : List Char} {lo hi : Nat}
    (h : isDigitF w = true → lo ≤ valF w ∧ valF w ≤ hi) :
    rangeOk w lo hi = true := by
  by_cases hd : isDigitF w = true
  · simpa [rangeOk, hd, Bool.and_eq_true, decide_eq_true_eq] using h hd
  · have hd2 : isDigitF w = false := Bool.eq_false_iff.mpr hd
    simp [rangeOk, hd2]

/-- C1: for every input string `expr`, `_validate_cron` returns true if
and only if splitting `expr` on whitespace yields exactly 5 fields, every
character of every field is a digit or one of star, slash, hyphen, comma,
and each entirely numeric field lies within its domain range (minute
0-59, hour 0-23, day of month 1-31, month 1-12, day of week 0-6). -/
theorem validate_iff_claim (expr : String) :
    validateCronS expr = true ↔
      ((words expr.data).length = 5 ∧
        (∀ f ∈ words expr.data, ∀ c ∈ f,
          c.isDigit = true ∨ c = '*' ∨ c = '/' ∨ c = '-' ∨ c = ',') ∧
        ∀ p ∈ (words expr.data).zip [(0, 59), (0, 23), (1, 31), (1, 12), (0, 6)],
          (p.1 ≠ [] ∧ ∀ c ∈ p.1, c.isDigit = true) →
            p.2.1 ≤ valF p.1 ∧ valF p.1 ≤ p.2.2) := by
  unfold validateCronS
  rcases hws : words expr.data with _ | ⟨a, _ | ⟨b, _ | ⟨c, _ | ⟨d, _ | ⟨f, _ | ⟨g, t⟩⟩⟩⟩⟩⟩
  case cons.cons.cons.cons.cons.nil =>
    rw [validateCron_parts hws]
    constructor
    · intro hv
      simp only [Bool.and_eq_true] at hv
      obtain ⟨⟨⟨⟨⟨hchars, h1⟩, h2⟩, h3⟩, h4⟩, h5⟩ := hv
      refine ⟨rfl, ?_, ?_⟩
      · intro w hw ch hch
        exact (validChar_iff ch).mp
          (List.all_eq_true.mp (List.all_eq_true.mp hchars w hw) ch hch)
      · intro p hp hdig
        simp only [List.zip_cons_cons, List.zip_nil_right, List.mem_cons,
          List.not_mem_nil, or_false] at hp
        rcases hp with rfl | rfl | rfl | rfl | rfl
        · exact rangeOk_imp h1 hdig.1 hdig.2
        · exact rangeOk_imp h2 hdig.1 hdig.2
        · exact rangeOk_imp h3 hdig.1 hdig.2
        · exact rangeOk_imp h4 hdig.1 hdig.2
        · exact rangeOk_imp h5 hdig.1 hdig.2
    · rintro ⟨-, hchars, hrange⟩
      simp only [Bool.and_eq_true]
      refine ⟨⟨⟨⟨⟨?_, ?_⟩, ?_⟩, ?_⟩, ?_⟩, ?_⟩
      · exact List.all_eq_true.mpr fun w hw => List.all_eq_true.mpr fun ch hch =>
          (validChar_iff ch).mpr (hchars w hw ch hch)
      · exact rangeOk_of fun hd => hrange (a, (0, 59)) (by simp) ((isDigitF_iff a).mp hd)
      · exact rangeOk_of fun hd => hrange (b, (0, 23)) (by simp) ((isDigitF_iff b).mp hd)
      · exact rangeOk_of fun hd => hrange (c, (1, 31)) (by simp) ((isDigitF_iff c).mp hd)
      · exact rangeOk_of fun hd => hrange (d, (1, 12)) (by simp) ((isDigitF_iff d).mp hd)
      · exact rangeOk_of fun hd => hrange (f, (0, 6)) (by simp) ((isDigitF_iff f).mp hd)
  all_goals
    have h0 : validateCron expr.data = false := by unfold validateCron; rw [hws]
    constructor
    · intro hcontra
      rw [h0] at hcontra
      exact absurd hcontra (by simp)
    · rintro ⟨hlen, -⟩
      exfalso
      simp only [List.length_cons, List.length_nil] at hlen
      omega

/-- C1 witness: the theorem applied at a concrete valid expression. -/
theorem validate_iff_claim_witness : validateCronS "0 3 * * *" = true :=
  (validate_iff_claim "0 3 * * *").mpr (by decide)

/-! ## C8: the normalizer contract -/

/-- C8: on every already-validated 5-field expression, `_normalize_cron`
rewrites each field of the shape zero-slash-remainder to
star-slash-remainder and passes every other field through unchanged;
fields are rewritten independently (the result's fields are the
`normField` image of the input's fields). -/
theorem normalize_fields_claim (expr : String)
    (hv : validateCronS expr = true) :
    words (normalizeCronS expr).data = (words expr.data).map normField ∧
      (∀ w rest, w = '0' :: '/' :: rest → normField w = '*' :: '/' :: rest) ∧
      (∀ w, (¬ ∃ rest, w = '0' :: '/' :: rest) → normField w = w) := by
  refine ⟨words_normalizeCron hv, ?_, ?_⟩
  · intro w rest hw
    subst hw
    rcases normField_eq ('0' :: '/' :: rest) with ⟨-, he⟩ | ⟨hne, -⟩
    · exact he
    · exact absurd ⟨rest, rfl⟩ hne
  · intro w hne
    rcases normField_eq w with ⟨hex, -⟩ | ⟨-, he⟩
    · exact absurd hex hne
    · exact he

/-- C8 witness: the spec's own example, with the hypothesis discharged
concretely. -/
theorem normalize_fields_claim_witness :
    validateCronS "0/5 0/5 * * *" = true ∧
      words (normalizeCronS "0/5 0/5 * * *").data
        = (words "0/5 0/5 * * *".data).map normField :=
  ⟨by decide, (normalize_fields_claim "0/5 0/5 * * *" (by decide)).1⟩

/-! ## C3 / C6: timezone conversion -/

theorem convMinHour_not_applied {conv : Conv} {tz : String} {mi hr : List Char}
    (h : tz = "UTC" ∨ isDigitF mi = false ∨ isDigitF hr = false) :
    convMinHour conv tz mi hr = (mi, hr) := by
  have hcond : (tz != "UTC" && isDigitF mi && isDigitF hr) = false := by
    rcases h with rfl | h | h
    · simp
    · simp [h]
    · simp [h]
  simp [convMinHour, hcond]

theorem convMinHour_applied {conv : Conv} {tz : String} {mi hr : List Char}
    {h2 m2 : Nat} (hne : tz ≠ "UTC") (hmi : isDigitF mi = true)
    (hhr : isDigitF hr = true) (hc : conv tz (valF hr) (valF mi) = some (h2, m2)) :
    convMinHour conv tz mi hr = ((Nat.repr m2).data, (Nat.repr h2).data) := by
  have hcond : (tz != "UTC" && isDigitF mi && isDigitF hr) = true := by
    simp [hne, hmi, hhr]
  simp [convMinHour, hcond, hc]

theorem convMinHour_failed {conv : Conv} {tz : String} {mi hr : List Char}
    (hne : tz ≠ "UTC") (hmi : isDigitF mi = true) (hhr : isDigitF hr = true)
    (hc : conv tz (valF hr) (valF mi) = none) :
    convMinHour conv tz mi hr = (mi, hr) := by
  have hcond : (tz != "UTC" && isDigitF mi && isDigitF hr) = true := by
    simp [hne, hmi, hhr]
  simp [convMinHour, hcond, hc]

theorem upsert_self (k : Key) (t : Task) (st : Store) :
    (upsert k t st).1 k = some t := by
  simp [upsert]

/-- C3: UTC-conversion of minute and hour happens exactly when the
configured timezone differs from `"UTC"` and both fields are pure digit
literals.  Otherwise the normalized fields are persisted unchanged, and
the result does not depend on the timezone converter at all (no lookup is
performed); in particular with timezone `"UTC"` the conversion is the
identity. -/
theorem tz_conversion_claim (conv conv2 : Conv) (tz : String) (e : List Char)
    (nm : Key) (act : String) (args : List Nat) (descr : String) (st : Store)
    (mi hr dom moy dow : List Char)
    (hv : validateCron e = true)
    (hw : words (normalizeCron e) = [mi, hr, dom, moy, dow]) :
    ((tz = "UTC" ∨ isDigitF mi = false ∨ isDigitF hr = false) →
        createOrUpdateCore conv tz e nm act args descr st =
          createOrUpdateCore conv2 tz e nm act args descr st ∧
        (createOrUpdateCore conv tz e nm act args descr st).1 nm =
          some { crontab := [mi, hr, dom, moy, dow], action := act, args := args,
                 enabled := true, description := descr }) ∧
      (tz ≠ "UTC" → isDigitF mi = true → isDigitF hr = true →
        ∀ h2 m2, conv tz (valF hr) (valF mi) = some (h2, m2) →
          (createOrUpdateCore conv tz e nm act args descr st).1 nm =
            some { crontab := [(Nat.repr m2).data, (Nat.repr h2).data, dom, moy, dow],
                   action := act, args := args, enabled := true, description := descr }) := by
  constructor
  · intro hcase
    rw [createOrUpdateCore_eq hv hw, createOrUpdateCore_eq hv hw,
      @convMinHour_not_applied conv tz mi hr hcase,
      @convMinHour_not_applied conv2 tz mi hr hcase]
    exact ⟨rfl, upsert_self ..⟩
  · intro hne hmi hhr h2 m2 hc
    rw [createOrUpdateCore_eq hv hw, convMinHour_applied hne hmi hhr hc]
    exact upsert_self ..

/-- C3 witness: a literal `0 22 * * *` schedule in US/Eastern with an
EST-style converter lands at `0 3`, and the composite/UTC cases follow
from the same theorem at the same input. -/
theorem tz_conversion_claim_witness :
    (createOrUpdateCore (fun _ hh mm => some ((hh + 5) % 24, mm)) "US/Eastern"
        "0 22 * * *".data "k".data "a" [] "d" (fun _ => none)).1 "k".data =
      some { crontab := [['0'], ['3'], ['*'], ['*'], ['*']], action := "a",
             args := [], enabled := true, description := "d" } :=
  (tz_conversion_claim (fun _ hh mm => some ((hh + 5) % 24, mm))
      (fun _ _ _ => none) "US/Eastern" "0 22 * * *".data "k".data "a" [] "d"
      (fun _ => none) ['0'] ['2', '2'] ['*'] ['*'] ['*']
      (by decide) (by decide)).2
    (by decide) (by decide) (by decide) 3 0 rfl

/-- C6: when the timezone conversion fails (the converter reports an
error), the original unconverted minute and hour are kept, the upsert for
the source still takes place, and the sync loop goes on to process the
remaining sources (the failure never aborts the reconciliation). -/
theorem conversion_error_fallback (conv : Conv) (epg : Source) (e : List Char)
    (tz : String) (st : Store) (mi hr dom moy dow : List Char)
    (hv : validateCron e = true)
    (hw : words (normalizeCron e) = [mi, hr, dom, moy, dow])
    (hne : tz ≠ "UTC") (hmi : isDigitF mi = true) (hhr : isDigitF hr = true)
    (hc : conv tz (valF hr) (valF mi) = none) :
    (createOrUpdateEpg conv epg e tz st).1 (epgKey epg.id) =
        some { crontab := [mi, hr, dom, moy, dow],
               action := "apps.epg.tasks.refresh_all_epg_data", args := [],
               enabled := true,
               description := "Refresh triggered by: " ++ epg.name ++ " (" ++ tz ++ ")" } ∧
      (createOrUpdateEpg conv epg e tz st).2 = some (st (epgKey epg.id)).isNone ∧
      ∀ (rest : List Source) (cfg : Config) (acc : SyncAcc),
        (epg :: rest).foldl (syncEpgStep conv cfg tz) acc =
          rest.foldl (syncEpgStep conv cfg tz) (syncEpgStep conv cfg tz acc epg) := by
  unfold createOrUpdateEpg
  rw [createOrUpdateCore_eq hv hw, convMinHour_failed hne hmi hhr hc]
  exact ⟨upsert_self .., rfl, fun _ _ _ => rfl⟩

/-- C6 witness: a failing converter at a concrete literal schedule. -/
theorem conversion_error_fallback_witness :
    (createOrUpdateEpg (fun _ _ _ => none) ⟨7, "Guide A"⟩ "0 22 * * *".data
        "US/Eastern" (fun _ => none)).1 (epgKey 7) =
      some { crontab := [['0'], ['2', '2'], ['*'], ['*'], ['*']],
             action := "apps.epg.tasks.refresh_all_epg_data", args := [],
             enabled := true,
             description := "Refresh triggered by: Guide A (US/Eastern)" } :=
  (conversion_error_fallback (fun _ _ _ => none) ⟨7, "Guide A"⟩
      "0 22 * * *".data "US/Eastern" (fun _ => none)
      ['0'] ['2', '2'] ['*'] ['*'] ['*']
      (by decide) (by decide) (by decide) (by decide) (by decide) rfl).1

/-! ## C2: validation-error policy (save fatal, sync skip) -/

theorem saveM3uLoop_append (conv : Conv) (cfg : Config) (tz : String)
    (xs : List Source) :
    ∀ (ys : List Source) (st : Store) (syn rem : List String),
      saveM3uLoop conv cfg tz (xs ++ ys) st syn rem =
        match saveM3uLoop conv cfg tz xs st syn rem with
        | .error e => .error e
        | .ok (st1, syn1, rem1) => saveM3uLoop conv cfg tz ys st1 syn1 rem1 := by
  induction xs with
  | nil => intro ys st syn rem; rfl
  | cons s rest ih =>
      intro ys st syn rem
      rw [List.cons_append]
      simp only [saveM3uLoop]
      cases hstep : saveM3uStep conv cfg tz s st syn rem with
      | error e => rfl
      | ok t =>
          obtain ⟨st1, syn1, rem1⟩ := t
          exact ih ys st1 syn1 rem1

/-- A failing enabled M3U source makes the save step abort with the
per-source message and the untouched store. -/
theorem saveM3uStep_error {conv : Conv} {cfg : Config} {tz : String}
    {s : Source} (st : Store) (syn rem : List String)
    (hen : decodeEnabledSave (cfgGetD cfg (m3uEnabledKey s.id) (.bool false)) = true)
    (hsched : (schedOf cfg (m3uSchedKey s.id)).isEmpty = false)
    (hval : validateCron (schedOf cfg (m3uSchedKey s.id)) = false) :
    saveM3uStep conv cfg tz s st syn rem =
      .error (⟨false, invalidM3uMsg s.name (schedOf cfg (m3uSchedKey s.id))⟩, st) := by
  simp [saveM3uStep, hen, hsched, hval]

/-- A failing enabled M3U source is a no-op for the sync loop. -/
theorem syncM3uStep_skip {conv : Conv} {cfg : Config} {tz : String}
    {s : Source} (acc : SyncAcc)
    (hen : truthy (cfgGetD cfg (m3uEnabledKey s.id) (.bool false)) = true)
    (hsched : (schedOf cfg (m3uSchedKey s.id)).isEmpty = false)
    (hval : validateCron (schedOf cfg (m3uSchedKey s.id)) = false) :
    syncM3uStep conv cfg tz acc s = acc := by
  simp [syncM3uStep, hen, hsched, hval]

theorem saveEpgLoop_append (conv : Conv) (cfg : Config) (tz : String)
    (xs : List Source) :
    ∀ (ys : List Source) (st : Store) (syn rem : List String),
      saveEpgLoop conv cfg tz (xs ++ ys) st syn rem =
        match saveEpgLoop conv cfg tz xs st syn rem with
        | .error e => .error e
        | .ok (st1, syn1, rem1) => saveEpgLoop conv cfg tz ys st1 syn1 rem1 := by
  induction xs with
  | nil => intro ys st syn rem; rfl
  | cons s rest ih =>
      intro ys st syn rem
      rw [List.cons_append]
      simp only [saveEpgLoop]
      cases hstep : saveEpgStep conv cfg tz s st syn rem with
      | error e => rfl
      | ok t =>
          obtain ⟨st1, syn1, rem1⟩ := t
          exact ih ys st1 syn1 rem1

/-- A failing enabled EPG source makes the save step abort with the
per-source message and the untouched store. -/
theorem saveEpgStep_error {conv : Conv} {cfg : Config} {tz : String}
    {s : Source} (st : Store) (syn rem : List String)
    (hen : decodeEnabledSave (cfgGetD cfg (epgEnabledKey s.id) (.bool false)) = true)
    (hsched : (schedOf cfg (epgSchedKey s.id)).isEmpty = false)
    (hval : validateCron (schedOf cfg (epgSchedKey s.id)) = false) :
    saveEpgStep conv cfg tz s st syn rem =
      .error (⟨false, invalidEpgMsg s.name (schedOf cfg (epgSchedKey s.id))⟩, st) := by
  simp [saveEpgStep, hen, hsched, hval]

/-- A failing enabled EPG source is a no-op for the sync loop. -/
theorem syncEpgStep_skip {conv : Conv} {cfg : Config} {tz : String}
    {s : Source} (acc : SyncAcc)
    (hen : truthy (cfgGetD cfg (epgEnabledKey s.id) (.bool false)) = true)
    (hsched : (schedOf cfg (epgSchedKey s.id)).isEmpty = false)
    (hval : validateCron (schedOf cfg (epgSchedKey s.id)) = false) :
    syncEpgStep conv cfg tz acc s = acc := by
  simp [syncEpgStep, hen, hsched, hval]

/-- C2: when an enabled source with a non-empty cron fails validation —
of either kind — `save_settings` returns a failure outcome carrying the
per-source message (naming the source and the expression) with exactly
the store reached after the sources before it — no later source, of
either kind, is upserted or deleted — while `_sync_schedules` skips the
failing source entirely (neither upsert nor delete) and processes the
rest as if it were not there.  The four conjuncts are the save abort and
the sync skip for a failing M3U source and for a failing EPG source. -/
theorem error_policy_claim (conv : Conv) (cfg : Config) (bad : Source) :
    (∀ (pre post epgs : List Source) (st st1 : Store) (syn1 rem1 : List String),
      saveM3uLoop conv cfg (tzOf cfg) pre st [] [] = .ok (st1, syn1, rem1) →
      decodeEnabledSave (cfgGetD cfg (m3uEnabledKey bad.id) (.bool false)) = true →
      (schedOf cfg (m3uSchedKey bad.id)).isEmpty = false →
      validateCron (schedOf cfg (m3uSchedKey bad.id)) = false →
      saveSettings conv (pre ++ bad :: post) epgs cfg st =
        (⟨false, invalidM3uMsg bad.name (schedOf cfg (m3uSchedKey bad.id))⟩, st1)) ∧
    (∀ (m3us pre post : List Source) (st st1 st2 : Store)
        (syn1 rem1 syn2 rem2 : List String),
      saveM3uLoop conv cfg (tzOf cfg) m3us st [] [] = .ok (st1, syn1, rem1) →
      saveEpgLoop conv cfg (tzOf cfg) pre st1 [] [] = .ok (st2, syn2, rem2) →
      decodeEnabledSave (cfgGetD cfg (epgEnabledKey bad.id) (.bool false)) = true →
      (schedOf cfg (epgSchedKey bad.id)).isEmpty = false →
      validateCron (schedOf cfg (epgSchedKey bad.id)) = false →
      saveSettings conv m3us (pre ++ bad :: post) cfg st =
        (⟨false, invalidEpgMsg bad.name (schedOf cfg (epgSchedKey bad.id))⟩, st2)) ∧
    (∀ (tz : String) (xs ys : List Source) (acc : SyncAcc),
      truthy (cfgGetD cfg (m3uEnabledKey bad.id) (.bool false)) = true →
      (schedOf cfg (m3uSchedKey bad.id)).isEmpty = false →
      validateCron (schedOf cfg (m3uSchedKey bad.id)) = false →
      (xs ++ bad :: ys).foldl (syncM3uStep conv cfg tz) acc =
        (xs ++ ys).foldl (syncM3uStep conv cfg tz) acc) ∧
    (∀ (tz : String) (xs ys : List Source) (acc : SyncAcc),
      truthy (cfgGetD cfg (epgEnabledKey bad.id) (.bool false)) = true →
      (schedOf cfg (epgSchedKey bad.id)).isEmpty = false →
      validateCron (schedOf cfg (epgSchedKey bad.id)) = false →
      (xs ++ bad :: ys).foldl (syncEpgStep conv cfg tz) acc =
        (xs ++ ys).foldl (syncEpgStep conv cfg tz) acc) := by
  refine ⟨?_, ?_, ?_, ?_⟩
  · intro pre post epgs st st1 syn1 rem1 hok hen hsched hval
    unfold saveSettings
    rw [saveM3uLoop_append, hok]
    show (match saveM3uLoop conv cfg (tzOf cfg) (bad :: post) st1 syn1 rem1 with
      | .error e => e
      | .ok (st2, m3uSyn, m3uRem) => _) = _
    rw [saveM3uLoop, saveM3uStep_error st1 syn1 rem1 hen hsched hval]
  · intro m3us pre post st st1 st2 syn1 rem1 syn2 rem2 hm3u hpre hen hsched hval
    unfold saveSettings
    rw [hm3u]
    show (match saveEpgLoop conv cfg (tzOf cfg) (pre ++ bad :: post) st1 [] [] with
      | Except.error e => e
      | Except.ok (st3, epgSyn, epgRem) =>
          ((⟨true, saveMessage (tzOf cfg) syn1 rem1 epgSyn epgRem⟩ : ActionResult),
            st3)) = _
    rw [saveEpgLoop_append, hpre]
    show (match saveEpgLoop conv cfg (tzOf cfg) (bad :: post) st2 syn2 rem2 with
      | Except.error e => e
      | Except.ok (st3, epgSyn, epgRem) =>
          ((⟨true, saveMessage (tzOf cfg) syn1 rem1 epgSyn epgRem⟩ : ActionResult),
            st3)) = _
    rw [saveEpgLoop, saveEpgStep_error st2 syn2 rem2 hen hsched hval]
  · intro tz xs ys acc hen hsched hval
    rw [List.foldl_append, List.foldl_append]
    show (bad :: ys).foldl (syncM3uStep conv cfg tz) _ = _
    rw [List.foldl_cons, syncM3uStep_skip _ hen hsched hval]
  · intro tz xs ys acc hen hsched hval
    rw [List.foldl_append, List.foldl_append]
    show (bad :: ys).foldl (syncEpgStep conv cfg tz) _ = _
    rw [List.foldl_cons, syncEpgStep_skip _ hen hsched hval]

/-- C2 witness: a single enabled source with the out-of-range cron
`99 99 * * *`, once as an M3U account and once as an EPG source; save
aborts with the kind-specific naming message in both cases. -/
theorem error_policy_claim_witness :
    (saveSettings (fun _ _ _ => none) [⟨1, "A"⟩] []
        [(m3uEnabledKey 1, .bool true), (m3uSchedKey 1, .str "99 99 * * *")]
        (fun _ => none)).1 =
      ⟨false, invalidM3uMsg "A" "99 99 * * *".data⟩ ∧
    (saveSettings (fun _ _ _ => none) [] [⟨2, "B"⟩]
        [(epgEnabledKey 2, .bool true), (epgSchedKey 2, .str "99 99 * * *")]
        (fun _ => none)).1 =
      ⟨false, invalidEpgMsg "B" "99 99 * * *".data⟩ := by
  constructor
  · have h := (error_policy_claim (fun _ _ _ => none)
        [(m3uEnabledKey 1, .bool true), (m3uSchedKey 1, .str "99 99 * * *")]
        ⟨1, "A"⟩).1 [] [] [] (fun _ => none) (fun _ => none) [] [] rfl
        (by decide) (by decide) (by decide)
    rw [show ([] : List Source) ++ ⟨1, "A"⟩ :: [] = [⟨1, "A"⟩] from rfl] at h
    rw [h]
    have : schedOf [(m3uEnabledKey 1, .bool true), (m3uSchedKey 1, .str "99 99 * * *")]
        (m3uSchedKey 1) = "99 99 * * *".data := by decide
    rw [this]
  · have h := (error_policy_claim (fun _ _ _ => none)
        [(epgEnabledKey 2, .bool true), (epgSchedKey 2, .str "99 99 * * *")]
        ⟨2, "B"⟩).2.1 [] [] [] (fun _ => none) (fun _ => none) (fun _ => none)
        [] [] [] [] rfl rfl (by decide) (by decide) (by decide)
    rw [show ([] : List Source) ++ ⟨2, "B"⟩ :: [] = [⟨2, "B"⟩] from rfl] at h
    rw [h]
    have : schedOf [(epgEnabledKey 2, .bool true), (epgSchedKey 2, .str "99 99 * * *")]
        (epgSchedKey 2) = "99 99 * * *".data := by decide
    rw [this]

/-! ## C9: disabling deletes exactly the source's own descriptor -/

theorem deleteTask_self (k : Key) (st : Store) : (deleteTask k st).1 k = none := by
  simp [deleteTask]

theorem deleteTask_other {k k2 : Key} (st : Store) (h : k2 ≠ k) :
    (deleteTask k st).1 k2 = st k2 := by
  simp [deleteTask, h]

theorem deleteTask_absent {k : Key} {st : Store} (h : st k = none) :
    (deleteTask k st).1 = st := by
  funext k2
  by_cases hk : k2 = k
  · subst hk; simp [deleteTask, h]
  · simp [deleteTask, hk]

/-- C9: deleting the schedule of a source removes exactly the descriptor
keyed by that source's type and id and leaves every other key untouched;
if no descriptor exists the delete is a no-op; and in the sync loop a
disabled (or empty-schedule) source performs exactly this delete. -/
theorem disable_deletes_exactly_claim (st : Store) (i : Nat) (conv : Conv)
    (cfg : Config) (tz : String) (s : Source) (acc : SyncAcc) :
    ((deleteEpg i st).1 (epgKey i) = none ∧
      (∀ k, k ≠ epgKey i → (deleteEpg i st).1 k = st k) ∧
      (st (epgKey i) = none → (deleteEpg i st).1 = st)) ∧
    ((deleteM3u i st).1 (m3uKey i) = none ∧
      (∀ k, k ≠ m3uKey i → (deleteM3u i st).1 k = st k) ∧
      (st (m3uKey i) = none → (deleteM3u i st).1 = st)) ∧
    ((truthy (cfgGetD cfg (m3uEnabledKey s.id) (.bool false)) = false ∨
        schedOf cfg (m3uSchedKey s.id) = []) →
      (syncM3uStep conv cfg tz acc s).store = (deleteM3u s.id acc.store).1) ∧
    ((truthy (cfgGetD cfg (epgEnabledKey s.id) (.bool false)) = false ∨
        schedOf cfg (epgSchedKey s.id) = []) →
      (syncEpgStep conv cfg tz acc s).store = (deleteEpg s.id acc.store).1) := by
  refine ⟨⟨deleteTask_self .., fun k hk => deleteTask_other st hk,
      fun h => deleteTask_absent h⟩,
    ⟨deleteTask_self .., fun k hk => deleteTask_other st hk,
      fun h => deleteTask_absent h⟩, ?_, ?_⟩
  · intro hdis
    have hcond : (truthy (cfgGetD cfg (m3uEnabledKey s.id) (.bool false)) &&
        !(schedOf cfg (m3uSchedKey s.id)).isEmpty) = false := by
      rcases hdis with h | h
      · simp [h]
      · simp [h]
    simp [syncM3uStep, hcond]
  · intro hdis
    have hcond : (truthy (cfgGetD cfg (epgEnabledKey s.id) (.bool false)) &&
        !(schedOf cfg (epgSchedKey s.id)).isEmpty) = false := by
      rcases hdis with h | h
      · simp [h]
      · simp [h]
    simp [syncEpgStep, hcond]

/-- C9 witness: a two-descriptor store; deleting EPG 7 empties its own
key, leaves EPG 8 alone, and the disabled sync step is that delete. -/
theorem disable_deletes_exactly_claim_witness :
    (deleteEpg 7 (fun k =>
        if k = epgKey 7 then some ⟨[['0']], "a", [], true, "d"⟩ else none)).1
        (epgKey 7) = none ∧
    (deleteEpg 7 (fun k =>
        if k = epgKey 7 then some ⟨[['0']], "a", [], true, "d"⟩ else none)).1
        (epgKey 8) =
      (fun k => if k = epgKey 7 then some ⟨[['0']], "a", [], true, "d"⟩ else none)
        (epgKey 8) := by
  have h := disable_deletes_exactly_claim
    (fun k => if k = epgKey 7 then some ⟨[['0']], "a", [], true, "d"⟩ else none)
    7 (fun _ _ _ => none) [] "UTC" ⟨7, "A"⟩ ⟨fun _ => none, 0, [], []⟩
  exact ⟨h.1.1, h.1.2.1 (epgKey 8) (by decide)⟩

/-! ## C10: decoding of string enabled values -/

/-- C10 counterexample: the sync entry point does not decode string
enabled values.  With `m3u_1_enabled = "false"` the claim says the source
is disabled (so its descriptor would be deleted / absent); the code's raw
truthiness treats `"false"` as enabled and upserts the descriptor. -/
theorem truthy_decode_counterexample :
    truthy (.str "false") = true ∧
    ((syncSchedules (fun _ _ _ => none) [⟨1, "A"⟩] []
        [(m3uEnabledKey 1, .str "false"), (m3uSchedKey 1, .str "0 3 * * *"),
         ("timezone".data, .str "UTC")] []
        (fun _ => none)).2.store (m3uKey 1)).isSome = true := by
  constructor
  · decide
  · decide

theorem saveM3uStep_disabled {conv : Conv} {cfg : Config} {tz : String}
    {s : Source} (st : Store) (syn rem : List String)
    (hen : decodeEnabledSave (cfgGetD cfg (m3uEnabledKey s.id) (.bool false)) = false) :
    saveM3uStep conv cfg tz s st syn rem =
      .ok ((deleteM3u s.id st).1, syn, rem ++ [s.name]) := by
  simp [saveM3uStep, hen]

theorem saveM3uStep_upsert {conv : Conv} {cfg : Config} {tz : String}
    {s : Source} (st : Store) (syn rem : List String)
    (hen : decodeEnabledSave (cfgGetD cfg (m3uEnabledKey s.id) (.bool false)) = true)
    (hsched : (schedOf cfg (m3uSchedKey s.id)).isEmpty = false)
    (hval : validateCron (schedOf cfg (m3uSchedKey s.id)) = true) :
    saveM3uStep conv cfg tz s st syn rem =
      .ok ((createOrUpdateM3u conv s (schedOf cfg (m3uSchedKey s.id)) tz st).1,
        syn ++ [s.name], rem) := by
  simp [saveM3uStep, hen, hsched, hval]

theorem saveSettings_single_m3u (conv : Conv) (cfg : Config) (s : Source)
    (st : Store) :
    saveSettings conv [s] [] cfg st =
      match saveM3uStep conv cfg (tzOf cfg) s st [] [] with
      | .error e => e
      | .ok (st1, syn, rem) => (⟨true, saveMessage (tzOf cfg) syn rem [] []⟩, st1) := by
  simp only [saveSettings, saveM3uLoop, saveEpgLoop]
  cases hstep : saveM3uStep conv cfg (tzOf cfg) s st [] [] with
  | error e2 => rfl
  | ok t => obtain ⟨a, b, c⟩ := t; rfl

theorem syncSchedules_single_m3u (conv : Conv) (cfg : Config) (s : Source)
    (st : Store) (hne : cfg.isEmpty = false) :
    (syncSchedules conv [s] [] cfg [] st).2.store =
      (syncM3uStep conv cfg (tzOf cfg) ⟨st, 0, [], []⟩ s).store := by
  simp only [syncSchedules, syncSchedulesCore, hne, List.isEmpty_nil, if_true,
    Bool.false_eq_true, if_false, List.foldl_cons, List.foldl_nil]

theorem syncM3uStep_upsert {conv : Conv} {cfg : Config} {tz : String}
    {s : Source} (acc : SyncAcc)
    (hen : truthy (cfgGetD cfg (m3uEnabledKey s.id) (.bool false)) = true)
    (hsched : (schedOf cfg (m3uSchedKey s.id)).isEmpty = false)
    (hval : validateCron (schedOf cfg (m3uSchedKey s.id)) = true) :
    syncM3uStep conv cfg tz acc s =
      { acc with
          store := (createOrUpdateM3u conv s (schedOf cfg (m3uSchedKey s.id)) tz acc.store).1
          created := acc.created +
            (if (createOrUpdateM3u conv s (schedOf cfg (m3uSchedKey s.id)) tz acc.store).2
                = some true then 1 else 0)
          synced := acc.synced ++ [s.name] } := by
  simp [syncM3uStep, hen, hsched, hval]

theorem syncM3uStep_disabled {conv : Conv} {cfg : Config} {tz : String}
    {s : Source} (acc : SyncAcc)
    (hcond : (truthy (cfgGetD cfg (m3uEnabledKey s.id) (.bool false)) &&
        !(schedOf cfg (m3uSchedKey s.id)).isEmpty) = false) :
    syncM3uStep conv cfg tz acc s =
      { acc with
          store := (deleteM3u s.id acc.store).1
          removed := acc.removed ++ [s.name] } := by
  simp [syncM3uStep, hcond]

/-- On a valid expression, the M3U upsert leaves a descriptor at the
source's key. -/
theorem createOrUpdateM3u_present {conv : Conv} {s : Source} {cron : List Char}
    {tz : String} (st : Store) (hv : validateCron cron = true) :
    ((createOrUpdateM3u conv s cron tz st).1 (m3uKey s.id)).isSome = true := by
  obtain ⟨a, b, c, d, f, hw0⟩ := validateCron_words cron hv
  have hw : words (normalizeCron cron) =
      [normField a, normField b, normField c, normField d, normField f] := by
    rw [words_normalizeCron hv, hw0]
    rfl
  unfold createOrUpdateM3u
  rw [createOrUpdateCore_eq hv hw, upsert_self]
  rfl

/-- C10 as amended: only `save_settings` decodes string enabled values
against the truthy set; `_sync_schedules` applies raw Python truthiness,
so every non-empty string — `"false"` included — counts as enabled there.
Stated behaviorally: for a one-source catalog with a valid schedule, the
descriptor ends up present after save exactly when the lowercased value
is in the truthy set, and after sync exactly when the string is
non-empty. -/
theorem truthy_decode_amended (conv : Conv) (e : String) :
    ((saveSettings conv [⟨1, "A"⟩] []
        [(m3uEnabledKey 1, .str e), (m3uSchedKey 1, .str "0 3 * * *")]
        (fun _ => none)).2 (m3uKey 1)).isSome =
      (["true", "1", "yes", "on"] : List String).contains (asciiLower e) ∧
    ((syncSchedules conv [⟨1, "A"⟩] []
        [(m3uEnabledKey 1, .str e), (m3uSchedKey 1, .str "0 3 * * *")] []
        (fun _ => none)).2.store (m3uKey 1)).isSome = (e != "") := by
  have hen : cfgGetD [(m3uEnabledKey 1, .str e), (m3uSchedKey 1, .str "0 3 * * *")]
      (m3uEnabledKey 1) (.bool false) = .str e := rfl
  have hsched : schedOf [(m3uEnabledKey 1, .str e), (m3uSchedKey 1, .str "0 3 * * *")]
      (m3uSchedKey 1) = "0 3 * * *".data := rfl
  have hval : validateCron (schedOf
      [(m3uEnabledKey 1, .str e), (m3uSchedKey 1, .str "0 3 * * *")]
      (m3uSchedKey 1)) = true := by rw [hsched]; decide
  have hsemp : (schedOf [(m3uEnabledKey 1, .str e), (m3uSchedKey 1, .str "0 3 * * *")]
      (m3uSchedKey 1)).isEmpty = false := by rw [hsched]; decide
  constructor
  · rw [saveSettings_single_m3u,
      show (["true", "1", "yes", "on"] : List String).contains (asciiLower e)
        = decodeEnabledSave (.str e) from rfl]
    cases hb : decodeEnabledSave (.str e) with
    | false =>
        rw [saveM3uStep_disabled _ [] [] (by rw [hen]; exact hb)]
        simp [deleteM3u, deleteTask]
    | true =>
        rw [saveM3uStep_upsert _ [] [] (by rw [hen]; exact hb) hsemp hval]
        show ((createOrUpdateM3u conv ⟨1, "A"⟩
            (schedOf [(m3uEnabledKey 1, .str e), (m3uSchedKey 1, .str "0 3 * * *")]
              (m3uSchedKey 1))
            (tzOf [(m3uEnabledKey 1, .str e), (m3uSchedKey 1, .str "0 3 * * *")])
            (fun _ => none)).1 (m3uKey 1)).isSome = true
        exact createOrUpdateM3u_present (fun _ => none) hval
  · rw [syncSchedules_single_m3u conv
        [(m3uEnabledKey 1, .str e), (m3uSchedKey 1, .str "0 3 * * *")]
        ⟨1, "A"⟩ (fun _ => none) rfl,
      show (e != "") = truthy (.str e) from rfl]
    cases hb : truthy (.str e) with
    | false =>
        rw [syncM3uStep_disabled _ (by rw [hen, hb]; rfl)]
        simp [deleteM3u, deleteTask]
    | true =>
        rw [syncM3uStep_upsert _ (by rw [hen]; exact hb) hsemp hval]
        show ((createOrUpdateM3u conv ⟨1, "A"⟩
            (schedOf [(m3uEnabledKey 1, .str e), (m3uSchedKey 1, .str "0 3 * * *")]
              (m3uSchedKey 1))
            (tzOf [(m3uEnabledKey 1, .str e), (m3uSchedKey 1, .str "0 3 * * *")])
            (fun _ => none)).1 (m3uKey 1)).isSome = true
        exact createOrUpdateM3u_present (fun _ => none) hval

/-! ## C7: entirely absent configuration -/

/-- With an empty configuration, one save step is a delete. -/
theorem saveM3uStep_nilcfg (conv : Conv) (tz : String) (s : Source)
    (st : Store) (syn rem : List String) :
    saveM3uStep conv [] tz s st syn rem =
      .ok ((deleteM3u s.id st).1, syn, rem ++ [s.name]) :=
  saveM3uStep_disabled st syn rem rfl

theorem saveEpgStep_nilcfg (conv : Conv) (tz : String) (s : Source)
    (st : Store) (syn rem : List String) :
    saveEpgStep conv [] tz s st syn rem =
      .ok ((deleteEpg s.id st).1, syn, rem ++ [s.name]) := by
  simp [saveEpgStep, cfgGetD, cfgGet, decodeEnabledSave]

/-- The save loop over an empty configuration succeeds, only ever deletes
(every key either keeps its old value or is gone), and empties the key of
every catalog source. -/
theorem saveM3uLoop_nilcfg (conv : Conv) (tz : String) :
    ∀ (l : List Source) (st : Store) (syn rem : List String),
      ∃ st2 rem2, saveM3uLoop conv [] tz l st syn rem = .ok (st2, syn, rem2) ∧
        (∀ k, st2 k = st k ∨ st2 k = none) ∧
        (∀ s ∈ l, st2 (m3uKey s.id) = none) := by
  intro l
  induction l with
  | nil =>
      intro st syn rem
      exact ⟨st, rem, rfl, fun k => .inl rfl, by simp⟩
  | cons s rest ih =>
      intro st syn rem
      obtain ⟨st2, rem2, heq, hpt, hmem⟩ :=
        ih (deleteM3u s.id st).1 syn (rem ++ [s.name])
      refine ⟨st2, rem2, ?_, ?_, ?_⟩
      · show (match saveM3uStep conv [] tz s st syn rem with
          | Except.error e => Except.error e
          | Except.ok (st1, syn1, rem1) =>
              saveM3uLoop conv [] tz rest st1 syn1 rem1) = _
        rw [saveM3uStep_nilcfg]
        exact heq
      · intro k
        rcases hpt k with h | h
        · by_cases hk : k = m3uKey s.id
          · subst hk
            rw [h]
            exact .inr (deleteTask_self ..)
          · rw [h]
            exact .inl (deleteTask_other st hk)
        · exact .inr h
      · intro s2 hs2
        rcases List.mem_cons.mp hs2 with rfl | hs2
        · rcases hpt (m3uKey s2.id) with h | h
          · rw [h]
            exact deleteTask_self ..
          · exact h
        · exact hmem s2 hs2

theorem saveEpgLoop_nilcfg (conv : Conv) (tz : String) :
    ∀ (l : List Source) (st : Store) (syn rem : List String),
      ∃ st2 rem2, saveEpgLoop conv [] tz l st syn rem = .ok (st2, syn, rem2) ∧
        (∀ k, st2 k = st k ∨ st2 k = none) ∧
        (∀ s ∈ l, st2 (epgKey s.id) = none) := by
  intro l
  induction l with
  | nil =>
      intro st syn rem
      exact ⟨st, rem, rfl, fun k => .inl rfl, by simp⟩
  | cons s rest ih =>
      intro st syn rem
      obtain ⟨st2, rem2, heq, hpt, hmem⟩ :=
        ih (deleteEpg s.id st).1 syn (rem ++ [s.name])
      refine ⟨st2, rem2, ?_, ?_, ?_⟩
      · show (match saveEpgStep conv [] tz s st syn rem with
          | Except.error e => Except.error e
          | Except.ok (st1, syn1, rem1) =>
              saveEpgLoop conv [] tz rest st1 syn1 rem1) = _
        rw [saveEpgStep_nilcfg]
        exact heq
      · intro k
        rcases hpt k with h | h
        · by_cases hk : k = epgKey s.id
          · subst hk
            rw [h]
            exact .inr (deleteTask_self ..)
          · rw [h]
            exact .inl (deleteTask_other st hk)
        · exact .inr h
      · intro s2 hs2
        rcases List.mem_cons.mp hs2 with rfl | hs2
        · rcases hpt (epgKey s2.id) with h | h
          · rw [h]
            exact deleteTask_self ..
          · exact h
        · exact hmem s2 hs2

/-- C7 counterexample: with the configuration entirely absent (no passed
settings, no saved settings), the sync action fails outright
(`success = false`) and performs no reconciliation: a stale descriptor
that an as-if-disabled reconcile would have deleted stays in the store. -/
theorem missing_config_counterexample :
    (syncSchedules (fun _ _ _ => none) [⟨7, "Guide A"⟩] [] [] []
        (fun k => if k = m3uKey 7 then
          some ⟨[['0']], "a", [], true, "d"⟩ else none)).1.success = false ∧
    ((syncSchedules (fun _ _ _ => none) [⟨7, "Guide A"⟩] [] [] []
        (fun k => if k = m3uKey 7 then
          some ⟨[['0']], "a", [], true, "d"⟩ else none)).2.store
        (m3uKey 7)).isSome = true := by
  exact ⟨rfl, by decide⟩

/-- C7 as amended: with the configuration entirely absent, `save_settings`
does treat every source as disabled with an empty schedule and proceeds
(it succeeds and deletes every catalog-keyed descriptor), but the sync
action instead fails outright with the no-saved-settings message and
leaves the store untouched. -/
theorem missing_config_amended (conv : Conv) (m3us epgs : List Source)
    (st : Store) :
    syncSchedules conv m3us epgs [] [] st =
      (⟨false, noSavedSettingsMsg⟩, ⟨st, 0, [], []⟩) ∧
    (saveSettings conv m3us epgs [] st).1.success = true ∧
    (∀ s ∈ m3us, (saveSettings conv m3us epgs [] st).2 (m3uKey s.id) = none) ∧
    (∀ s ∈ epgs, (saveSettings conv m3us epgs [] st).2 (epgKey s.id) = none) := by
  obtain ⟨st1, rem1, heq1, hpt1, hmem1⟩ :=
    saveM3uLoop_nilcfg conv (tzOf []) m3us st [] []
  obtain ⟨st2, rem2, heq2, hpt2, hmem2⟩ :=
    saveEpgLoop_nilcfg conv (tzOf []) epgs st1 [] []
  have hsave : saveSettings conv m3us epgs [] st =
      (⟨true, saveMessage (tzOf []) [] rem1 [] rem2⟩, st2) := by
    unfold saveSettings
    rw [heq1]
    show (match saveEpgLoop conv [] (tzOf []) epgs st1 [] [] with
      | Except.error e => e
      | Except.ok (st2, epgSyn, epgRem) =>
          ((⟨true, saveMessage (tzOf []) [] rem1 epgSyn epgRem⟩ : ActionResult), st2)) = _
    rw [heq2]
  refine ⟨rfl, ?_, ?_, ?_⟩
  · rw [hsave]
  · intro s hs
    rw [hsave]
    show st2 (m3uKey s.id) = none
    rcases hpt2 (m3uKey s.id) with h | h
    · rw [h]
      exact hmem1 s hs
    · exact h
  · intro s hs
    rw [hsave]
    show st2 (epgKey s.id) = none
    exact hmem2 s hs

/-- C7 amended-claim witness: one stale M3U descriptor, empty
configuration; sync leaves it, save deletes it. -/
theorem missing_config_amended_witness :
    (syncSchedules (fun _ _ _ => none) [⟨1, "A"⟩] [] [] []
        (fun k => if k = m3uKey 1 then
          some ⟨[['0']], "a", [], true, "d"⟩ else none)) =
      (⟨false, noSavedSettingsMsg⟩,
        ⟨fun k => if k = m3uKey 1 then
          some ⟨[['0']], "a", [], true, "d"⟩ else none, 0, [], []⟩) ∧
    (saveSettings (fun _ _ _ => none) [⟨1, "A"⟩] [] []
        (fun k => if k = m3uKey 1 then
          some ⟨[['0']], "a", [], true, "d"⟩ else none)).2 (m3uKey 1) = none := by
  have h := missing_config_amended (fun _ _ _ => none) [⟨1, "A"⟩] []
    (fun k => if k = m3uKey 1 then some ⟨[['0']], "a", [], true, "d"⟩ else none)
  exact ⟨h.1, h.2.2.1 ⟨1, "A"⟩ (List.mem_singleton.mpr rfl)⟩

/-! ## C5: bulk teardown -/

theorem cleanupStep_store (mk : Nat → Key) (label : String)
    (acc : Store × Nat × List String) (s : Source) :
    (cleanupStep mk label acc s).1 = (deleteTask (mk s.id) acc.1).1 := by
  by_cases h : (acc.1 (mk s.id)).isSome
  · simp [cleanupStep, deleteTask, h]
  · simp [cleanupStep, deleteTask, h]

theorem cleanupStep_count (mk : Nat → Key) (label : String)
    (acc : Store × Nat × List String) (s : Source) :
    (cleanupStep mk label acc s).2.1 =
      acc.2.1 + (if (acc.1 (mk s.id)).isSome then 1 else 0) := by
  by_cases h : (acc.1 (mk s.id)).isSome
  · simp [cleanupStep, deleteTask, h]
  · simp [cleanupStep, deleteTask, h]

/-- Characterization of one cleanup pass: keys off the catalog are
untouched, catalog keys are emptied, and (for duplicate-free keys) the
count is the number of catalog keys that held a descriptor. -/
theorem cleanupFold_char (mk : Nat → Key) (label : String) :
    ∀ (l : List Source) (acc : Store × Nat × List String),
      (l.map fun s => mk s.id).Nodup →
      ((∀ k, (¬ ∃ s ∈ l, k = mk s.id) →
          (l.foldl (cleanupStep mk label) acc).1 k = acc.1 k) ∧
        (∀ s ∈ l, (l.foldl (cleanupStep mk label) acc).1 (mk s.id) = none) ∧
        (l.foldl (cleanupStep mk label) acc).2.1 =
          acc.2.1 + (((l.map fun s => mk s.id).filter fun k => (acc.1 k).isSome)).length) := by
  intro l
  induction l with
  | nil =>
      intro acc _
      exact ⟨fun k _ => rfl, by simp, by simp⟩
  | cons s rest ih =>
      intro acc hnd
      rw [List.map_cons, List.nodup_cons] at hnd
      obtain ⟨hnotin, hndr⟩ := hnd
      obtain ⟨ihf, ihm, ihc⟩ := ih (cleanupStep mk label acc s) hndr
      rw [List.foldl_cons]
      refine ⟨?_, ?_, ?_⟩
      · intro k hk
        have hkr : ¬ ∃ s2 ∈ rest, k = mk s2.id := by
          rintro ⟨s2, hs2, rfl⟩
          exact hk ⟨s2, List.mem_cons_of_mem s hs2, rfl⟩
        have hkh : k ≠ mk s.id := by
          intro h
          exact hk ⟨s, List.mem_cons_self s rest, h⟩
        rw [ihf k hkr, cleanupStep_store]
        exact deleteTask_other acc.1 hkh
      · intro s2 hs2
        rcases List.mem_cons.mp hs2 with rfl | hs2
        · have hkr : ¬ ∃ s3 ∈ rest, mk s2.id = mk s3.id := by
            rintro ⟨s3, hs3, he⟩
            exact hnotin (he ▸ List.mem_map.mpr ⟨s3, hs3, rfl⟩)
          rw [ihf (mk s2.id) hkr, cleanupStep_store]
          exact deleteTask_self ..
        · exact ihm s2 hs2
      · rw [ihc, cleanupStep_count, List.map_cons, List.filter_cons]
        have hcong : ((rest.map fun s2 => mk s2.id).filter
            fun k => ((cleanupStep mk label acc s).1 k).isSome) =
          ((rest.map fun s2 => mk s2.id).filter fun k => (acc.1 k).isSome) := by
          refine List.filter_congr ?_
          intro k hk
          have hkh : k ≠ mk s.id := by
            rintro rfl
            exact hnotin hk
          rw [cleanupStep_store, deleteTask_other acc.1 hkh]
        rw [hcong]
        by_cases h : (acc.1 (mk s.id)).isSome
        · simp only [h, if_true, if_pos, List.length_cons]
          omega
        · have h2 : (acc.1 (mk s.id)).isSome = false := Bool.eq_false_iff.mpr h
          simp only [h2, if_false, Bool.false_eq_true]
          omega

/-- C5 counterexample: a descriptor in the plugin's own key namespace
(`epg_refresh_scheduler_epg_42`) whose source is no longer in the catalog
survives the remove-all action, and the reported count is 0 — the action
does not delete every descriptor the plugin owns. -/
theorem cleanup_all_counterexample :
    ((cleanupAllSchedules [] []
        (fun k => if k = epgKey 42 then
          some ⟨[['0']], "a", [], true, "d"⟩ else none)).2.1
        (epgKey 42)).isSome = true ∧
    (cleanupAllSchedules [] []
        (fun k => if k = epgKey 42 then
          some ⟨[['0']], "a", [], true, "d"⟩ else none)).2.2 = 0 := by
  exact ⟨by decide, rfl⟩

/-- C5 as amended: the remove-all action deletes exactly the descriptors
keyed by sources of the current catalogs — regardless of the settings
blob, which it never reads — leaves every other key (including orphaned
descriptors in the plugin's namespace) untouched, and reports the number
of catalog-keyed descriptors that were present. -/
theorem cleanup_all_amended (m3us epgs : List Source) (st : Store)
    (hnd : ((m3us.map fun s => m3uKey s.id) ++
        (epgs.map fun s => epgKey s.id)).Nodup) :
    (∀ s ∈ m3us, (cleanupAllSchedules m3us epgs st).2.1 (m3uKey s.id) = none) ∧
    (∀ s ∈ epgs, (cleanupAllSchedules m3us epgs st).2.1 (epgKey s.id) = none) ∧
    (∀ k, (¬ ∃ s ∈ m3us, k = m3uKey s.id) → (¬ ∃ s ∈ epgs, k = epgKey s.id) →
      (cleanupAllSchedules m3us epgs st).2.1 k = st k) ∧
    (cleanupAllSchedules m3us epgs st).2.2 =
      (((m3us.map fun s => m3uKey s.id) ++ (epgs.map fun s => epgKey s.id)).filter
        fun k => (st k).isSome).length := by
  rw [List.nodup_append] at hnd
  obtain ⟨hnd1, hnd2, hdisj⟩ := hnd
  obtain ⟨f1, m1, c1⟩ := cleanupFold_char m3uKey "M3U - " m3us (st, 0, []) hnd1
  obtain ⟨f2, m2, c2⟩ :=
    cleanupFold_char epgKey "EPG - " epgs
      (m3us.foldl (cleanupStep m3uKey "M3U - ") (st, 0, [])) hnd2
  have hstore : (cleanupAllSchedules m3us epgs st).2.1 =
      (epgs.foldl (cleanupStep epgKey "EPG - ")
        (m3us.foldl (cleanupStep m3uKey "M3U - ") (st, 0, []))).1 := rfl
  have hcount : (cleanupAllSchedules m3us epgs st).2.2 =
      (epgs.foldl (cleanupStep epgKey "EPG - ")
        (m3us.foldl (cleanupStep m3uKey "M3U - ") (st, 0, []))).2.1 := rfl
  refine ⟨?_, ?_, ?_, ?_⟩
  · intro s hs
    rw [hstore]
    have hne : ¬ ∃ s2 ∈ epgs, m3uKey s.id = epgKey s2.id := by
      rintro ⟨s2, hs2, he⟩
      exact hdisj (List.mem_map.mpr ⟨s, hs, rfl⟩) (he ▸ List.mem_map.mpr ⟨s2, hs2, rfl⟩)
    rw [f2 (m3uKey s.id) hne]
    exact m1 s hs
  · intro s hs
    rw [hstore]
    exact m2 s hs
  · intro k hk1 hk2
    rw [hstore, f2 k hk2, f1 k hk1]
  · have c1x : (m3us.foldl (cleanupStep m3uKey "M3U - ") (st, 0, [])).2.1 =
        ((m3us.map fun s => m3uKey s.id).filter fun k => (st k).isSome).length := by
      rw [c1]
      simp
    have hcong : ((epgs.map fun s => epgKey s.id).filter
        fun k => ((m3us.foldl (cleanupStep m3uKey "M3U - ") (st, 0, [])).1 k).isSome) =
      ((epgs.map fun s => epgKey s.id).filter fun k => (st k).isSome) := by
      refine List.filter_congr ?_
      intro k hk
      have hne : ¬ ∃ s ∈ m3us, k = m3uKey s.id := by
        rintro ⟨s, hs, rfl⟩
        exact hdisj (List.mem_map.mpr ⟨s, hs, rfl⟩) hk
      rw [f1 k hne]
    rw [hcount, c2, c1x, hcong, List.filter_append, List.length_append]

/-- C5 amended-claim witness: one cataloged M3U descriptor is removed
and counted, an orphaned namespaced descriptor survives. -/
theorem cleanup_all_amended_witness :
    (cleanupAllSchedules [⟨1, "A"⟩] [⟨2, "B"⟩]
        (fun k => if k = m3uKey 1 then some ⟨[['0']], "a", [], true, "d"⟩
          else if k = epgKey 42 then some ⟨[['0']], "a", [], true, "d"⟩
          else none)).2.1 (m3uKey 1) = none ∧
    (cleanupAllSchedules [⟨1, "A"⟩] [⟨2, "B"⟩]
        (fun k => if k = m3uKey 1 then some ⟨[['0']], "a", [], true, "d"⟩
          else if k = epgKey 42 then some ⟨[['0']], "a", [], true, "d"⟩
          else none)).2.1 (epgKey 42) =
      some ⟨[['0']], "a", [], true, "d"⟩ := by
  have h := cleanup_all_amended [⟨1, "A"⟩] [⟨2, "B"⟩]
    (fun k => if k = m3uKey 1 then some ⟨[['0']], "a", [], true, "d"⟩
      else if k = epgKey 42 then some ⟨[['0']], "a", [], true, "d"⟩
      else none) (by decide)
  refine ⟨h.1 ⟨1, "A"⟩ (List.mem_singleton.mpr rfl), ?_⟩
  have h2 := h.2.2.1 (epgKey 42) (by decide) (by decide)
  rw [h2]
  decide

/-! ## C4: idempotence of reconciliation -/

theorem applyOps_append (xs : List Op) :
    ∀ (ys : List Op) (st : Store),
      applyOps (xs ++ ys) st = applyOps ys (applyOps xs st) := by
  induction xs with
  | nil => intro ys st; rfl
  | cons o os ih => intro ys st; exact ih ys (applyOp o st)

theorem createdCount_append (xs : List Op) :
    ∀ (ys : List Op) (st : Store),
      createdCount (xs ++ ys) st =
        createdCount xs st + createdCount ys (applyOps xs st) := by
  induction xs with
  | nil => intro ys st; simp [createdCount, applyOps]
  | cons o os ih =>
      intro ys st
      show createdInc o st + createdCount (os ++ ys) (applyOp o st) = _
      rw [ih ys (applyOp o st),
        show applyOps (o :: os) st = applyOps os (applyOp o st) from rfl,
        show createdCount (o :: os) st
          = createdInc o st + createdCount os (applyOp o st) from rfl]
      omega

theorem lastWrite_key {ops : List Op} {k : Key} {o : Op}
    (h : lastWrite ops k = some o) : keyOf o = some k := by
  induction ops with
  | nil => simp [lastWrite] at h
  | cons o2 os ih =>
      rw [show lastWrite (o2 :: os) k =
        (match lastWrite os k with
         | some o3 => some o3
         | none => if keyOf o2 = some k then some o2 else none) from rfl] at h
      cases hlw : lastWrite os k with
      | some o3 =>
          rw [hlw] at h
          cases h
          exact ih hlw
      | none =>
          rw [hlw] at h
          by_cases hk : keyOf o2 = some k
          · rw [if_pos hk] at h
            cases h
            exact hk
          · rw [if_neg hk] at h
            cases h

theorem lastWrite_mem {ops : List Op} {k : Key} {o : Op}
    (h : lastWrite ops k = some o) : o ∈ ops := by
  induction ops with
  | nil => simp [lastWrite] at h
  | cons o2 os ih =>
      rw [show lastWrite (o2 :: os) k =
        (match lastWrite os k with
         | some o3 => some o3
         | none => if keyOf o2 = some k then some o2 else none) from rfl] at h
      cases hlw : lastWrite os k with
      | some o3 =>
          rw [hlw] at h
          cases h
          exact List.mem_cons_of_mem _ (ih hlw)
      | none =>
          rw [hlw] at h
          by_cases hk : keyOf o2 = some k
          · rw [if_pos hk] at h
            cases h
            exact List.mem_cons_self ..
          · rw [if_neg hk] at h
            cases h

theorem lastWrite_isSome_of_mem {ops : List Op} {k : Key}
    (h : ∃ o ∈ ops, keyOf o = some k) : ∃ o2, lastWrite ops k = some o2 := by
  induction ops with
  | nil => simp at h
  | cons o os ih =>
      rw [show lastWrite (o :: os) k =
        (match lastWrite os k with
         | some o3 => some o3
         | none => if keyOf o = some k then some o else none) from rfl]
      cases hlw : lastWrite os k with
      | some o3 => exact ⟨o3, rfl⟩
      | none =>
          obtain ⟨o4, ho4, hk4⟩ := h
          rcases List.mem_cons.mp ho4 with rfl | ho4
          · rw [if_pos hk4]
            exact ⟨o4, rfl⟩
          · obtain ⟨o5, ho5⟩ := ih ⟨o4, ho4, hk4⟩
            rw [hlw] at ho5
            cases ho5

theorem applyOps_eq_lastWrite (ops : List Op) :
    ∀ (st : Store) (k : Key),
      applyOps ops st k = opResult (lastWrite ops k) (st k) := by
  induction ops with
  | nil => intro st k; rfl
  | cons o os ih =>
      intro st k
      show applyOps os (applyOp o st) k = _
      rw [ih (applyOp o st) k,
        show lastWrite (o :: os) k =
          (match lastWrite os k with
           | some o3 => some o3
           | none => if keyOf o = some k then some o else none) from rfl]
      cases hlw : lastWrite os k with
      | some o2 =>
          have hk := lastWrite_key hlw
          cases o2 with
          | ups k2 t => rfl
          | del k2 => rfl
          | skip => simp [keyOf] at hk
      | none =>
          by_cases hko : keyOf o = some k
          · rw [if_pos hko]
            cases o with
            | ups k2 t =>
                have hk2 : k2 = k := by simpa [keyOf] using hko
                subst hk2
                simp [applyOp, opResult]
            | del k2 =>
                have hk2 : k2 = k := by simpa [keyOf] using hko
                subst hk2
                simp [applyOp, opResult]
            | skip => simp [keyOf] at hko
          · rw [if_neg hko]
            cases o with
            | ups k2 t =>
                have hk2 : k ≠ k2 := by
                  intro h
                  exact hko (by simp [keyOf, h])
                simp [applyOp, opResult, hk2]
            | del k2 =>
                have hk2 : k ≠ k2 := by
                  intro h
                  exact hko (by simp [keyOf, h])
                simp [applyOp, opResult, hk2]
            | skip => rfl

/-- Replaying any run of operations is a no-op on the store. -/
theorem applyOps_idem (ops : List Op) (st : Store) :
    applyOps ops (applyOps ops st) = applyOps ops st := by
  funext k
  rw [applyOps_eq_lastWrite ops (applyOps ops st) k]
  cases hlw : lastWrite ops k with
  | none => rfl
  | some o =>
      cases o with
      | ups k2 t => rw [applyOps_eq_lastWrite ops st k, hlw]; rfl
      | del k2 => rw [applyOps_eq_lastWrite ops st k, hlw]; rfl
      | skip =>
          have := lastWrite_key hlw
          simp [keyOf] at this

theorem createdCount_zero (ops : List Op) :
    ∀ st2 : Store, Consistent ops →
      (∀ k t, Op.ups k t ∈ ops → st2 k ≠ none) → createdCount ops st2 = 0 := by
  induction ops with
  | nil => intro st2 _ _; rfl
  | cons o os ih =>
      intro st2 hcons hpre
      show createdInc o st2 + createdCount os (applyOp o st2) = 0
      have h1 : createdInc o st2 = 0 := by
        cases o with
        | ups k t =>
            have := hpre k t (List.mem_cons_self ..)
            simp only [createdInc, Option.isNone_iff_eq_none]
            rw [if_neg this]
        | del k => rfl
        | skip => rfl
      have hcons2 : Consistent os := fun k t hm o2 ho2 hk2 =>
        hcons k t (List.mem_cons_of_mem _ hm) o2 (List.mem_cons_of_mem _ ho2) hk2
      have hpre2 : ∀ k t, Op.ups k t ∈ os → applyOp o st2 k ≠ none := by
        intro k t hm
        have hk2 := hpre k t (List.mem_cons_of_mem _ hm)
        cases o with
        | ups k3 t3 =>
            show (if k = k3 then some t3 else st2 k) ≠ none
            by_cases hk3 : k = k3
            · simp [hk3]
            · rw [if_neg hk3]
              exact hk2
        | del k3 =>
            have hne : k ≠ k3 := by
              rintro rfl
              have := hcons k t (List.mem_cons_of_mem _ hm) (.del k)
                (List.mem_cons_self ..) rfl
              simp [isUps] at this
            show (if k = k3 then none else st2 k) ≠ none
            rw [if_neg hne]
            exact hk2
        | skip => exact hk2
      rw [h1, ih (applyOp o st2) hcons2 hpre2]

/-- Replaying a consistent run creates nothing. -/
theorem createdCount_replay (ops : List Op) (st : Store)
    (hcons : Consistent ops) : createdCount ops (applyOps ops st) = 0 := by
  refine createdCount_zero ops (applyOps ops st) hcons ?_
  intro k t hm
  rw [applyOps_eq_lastWrite ops st k]
  obtain ⟨o2, hlw⟩ := lastWrite_isSome_of_mem ⟨.ups k t, hm, rfl⟩
  have hk2 := lastWrite_key hlw
  have hu : isUps o2 = true := hcons k t hm o2 (lastWrite_mem hlw) hk2
  cases o2 with
  | ups k3 t3 => rw [hlw]; simp [opResult]
  | del k3 => simp [isUps] at hu
  | skip => simp [isUps] at hu

theorem createOrUpdateM3u_eq {conv : Conv} {s : Source} {cron : List Char}
    {tz : String} (st : Store) (hv : validateCron cron = true) :
    createOrUpdateM3u conv s cron tz st =
      ((upsert (m3uKey s.id) (m3uTask conv tz s cron) st).1,
        some (st (m3uKey s.id)).isNone) := by
  obtain ⟨a, b, c, d, f, hw0⟩ := validateCron_words cron hv
  have hw : words (normalizeCron cron) =
      [normField a, normField b, normField c, normField d, normField f] := by
    rw [words_normalizeCron hv, hw0]
    rfl
  unfold createOrUpdateM3u
  rw [createOrUpdateCore_eq hv hw]
  unfold m3uTask mkTaskOf
  rw [hw]

theorem createOrUpdateEpg_eq {conv : Conv} {s : Source} {cron : List Char}
    {tz : String} (st : Store) (hv : validateCron cron = true) :
    createOrUpdateEpg conv s cron tz st =
      ((upsert (epgKey s.id) (epgTask conv tz s cron) st).1,
        some (st (epgKey s.id)).isNone) := by
  obtain ⟨a, b, c, d, f, hw0⟩ := validateCron_words cron hv
  have hw : words (normalizeCron cron) =
      [normField a, normField b, normField c, normField d, normField f] := by
    rw [words_normalizeCron hv, hw0]
    rfl
  unfold createOrUpdateEpg
  rw [createOrUpdateCore_eq hv hw]
  unfold epgTask mkTaskOf
  rw [hw]

/-- One sync step is its operation, both on the store and on the created
count. -/
theorem syncM3uStep_op (conv : Conv) (cfg : Config) (tz : String)
    (acc : SyncAcc) (s : Source) :
    (syncM3uStep conv cfg tz acc s).store =
      applyOp (m3uOp conv cfg tz s) acc.store ∧
    (syncM3uStep conv cfg tz acc s).created =
      acc.created + createdInc (m3uOp conv cfg tz s) acc.store := by
  by_cases h1 : (truthy (cfgGetD cfg (m3uEnabledKey s.id) (.bool false)) &&
      !(schedOf cfg (m3uSchedKey s.id)).isEmpty) = true
  · by_cases h2 : validateCron (schedOf cfg (m3uSchedKey s.id)) = true
    · constructor
      · simp [syncM3uStep, m3uOp, h1, h2, createOrUpdateM3u_eq acc.store h2,
          applyOp, upsert]
      · simp only [syncM3uStep, m3uOp, h1, h2, if_true,
          createOrUpdateM3u_eq acc.store h2]
        by_cases h3 : (acc.store (m3uKey s.id)).isNone = true
        · simp [createdInc, h3]
        · have h4 : (acc.store (m3uKey s.id)).isNone = false :=
            Bool.eq_false_iff.mpr h3
          simp [createdInc, h4]
    · have h2f : validateCron (schedOf cfg (m3uSchedKey s.id)) = false :=
        Bool.eq_false_iff.mpr h2
      constructor
      · simp [syncM3uStep, m3uOp, h1, h2f, applyOp]
      · simp [syncM3uStep, m3uOp, h1, h2f, createdInc]
  · have h1f : (truthy (cfgGetD cfg (m3uEnabledKey s.id) (.bool false)) &&
        !(schedOf cfg (m3uSchedKey s.id)).isEmpty) = false :=
      Bool.eq_false_iff.mpr h1
    constructor
    · simp [syncM3uStep, m3uOp, h1f, applyOp, deleteM3u, deleteTask]
    · simp [syncM3uStep, m3uOp, h1f, createdInc]

theorem syncEpgStep_op (conv : Conv) (cfg : Config) (tz : String)
    (acc : SyncAcc) (s : Source) :
    (syncEpgStep conv cfg tz acc s).store =
      applyOp (epgOp conv cfg tz s) acc.store ∧
    (syncEpgStep conv cfg tz acc s).created =
      acc.created + createdInc (epgOp conv cfg tz s) acc.store := by
  by_cases h1 : (truthy (cfgGetD cfg (epgEnabledKey s.id) (.bool false)) &&
      !(schedOf cfg (epgSchedKey s.id)).isEmpty) = true
  · by_cases h2 : validateCron (schedOf cfg (epgSchedKey s.id)) = true
    · constructor
      · simp [syncEpgStep, epgOp, h1, h2, createOrUpdateEpg_eq acc.store h2,
          applyOp, upsert]
      · simp only [syncEpgStep, epgOp, h1, h2, if_true,
          createOrUpdateEpg_eq acc.store h2]
        by_cases h3 : (acc.store (epgKey s.id)).isNone = true
        · simp [createdInc, h3]
        · have h4 : (acc.store (epgKey s.id)).isNone = false :=
            Bool.eq_false_iff.mpr h3
          simp [createdInc, h4]
    · have h2f : validateCron (schedOf cfg (epgSchedKey s.id)) = false :=
        Bool.eq_false_iff.mpr h2
      constructor
      · simp [syncEpgStep, epgOp, h1, h2f, applyOp]
      · simp [syncEpgStep, epgOp, h1, h2f, createdInc]
  · have h1f : (truthy (cfgGetD cfg (epgEnabledKey s.id) (.bool false)) &&
        !(schedOf cfg (epgSchedKey s.id)).isEmpty) = false :=
      Bool.eq_false_iff.mpr h1
    constructor
    · simp [syncEpgStep, epgOp, h1f, applyOp, deleteEpg, deleteTask]
    · simp [syncEpgStep, epgOp, h1f, createdInc]

theorem syncFoldM3u (conv : Conv) (cfg : Config) (tz : String) :
    ∀ (l : List Source) (acc : SyncAcc),
      (l.foldl (syncM3uStep conv cfg tz) acc).store =
        applyOps (l.map (m3uOp conv cfg tz)) acc.store ∧
      (l.foldl (syncM3uStep conv cfg tz) acc).created =
        acc.created + createdCount (l.map (m3uOp conv cfg tz)) acc.store := by
  intro l
  induction l with
  | nil => intro acc; exact ⟨rfl, by simp [applyOps, createdCount]⟩
  | cons s rest ih =>
      intro acc
      obtain ⟨hst, hcr⟩ := syncM3uStep_op conv cfg tz acc s
      obtain ⟨ihst, ihcr⟩ := ih (syncM3uStep conv cfg tz acc s)
      rw [List.foldl_cons, List.map_cons]
      constructor
      · rw [ihst, hst]
        rfl
      · rw [ihcr, hst, hcr,
          show createdCount (m3uOp conv cfg tz s :: rest.map (m3uOp conv cfg tz))
              acc.store
            = createdInc (m3uOp conv cfg tz s) acc.store +
              createdCount (rest.map (m3uOp conv cfg tz))
                (applyOp (m3uOp conv cfg tz s) acc.store) from rfl]
        omega

theorem syncFoldEpg (conv : Conv) (cfg : Config) (tz : String) :
    ∀ (l : List Source) (acc : SyncAcc),
      (l.foldl (syncEpgStep conv cfg tz) acc).store =
        applyOps (l.map (epgOp conv cfg tz)) acc.store ∧
      (l.foldl (syncEpgStep conv cfg tz) acc).created =
        acc.created + createdCount (l.map (epgOp conv cfg tz)) acc.store := by
  intro l
  induction l with
  | nil => intro acc; exact ⟨rfl, by simp [applyOps, createdCount]⟩
  | cons s rest ih =>
      intro acc
      obtain ⟨hst, hcr⟩ := syncEpgStep_op conv cfg tz acc s
      obtain ⟨ihst, ihcr⟩ := ih (syncEpgStep conv cfg tz acc s)
      rw [List.foldl_cons, List.map_cons]
      constructor
      · rw [ihst, hst]
        rfl
      · rw [ihcr, hst, hcr,
          show createdCount (epgOp conv cfg tz s :: rest.map (epgOp conv cfg tz))
              acc.store
            = createdInc (epgOp conv cfg tz s) acc.store +
              createdCount (rest.map (epgOp conv cfg tz))
                (applyOp (epgOp conv cfg tz s) acc.store) from rfl]
        omega

/-- The two folds of a sync body are exactly the operation run. -/
theorem syncBody_char (conv : Conv) (cfg2 : Config) (m3us epgs : List Source)
    (st : Store) :
    (epgs.foldl (syncEpgStep conv cfg2 (tzOf cfg2))
        { m3us.foldl (syncM3uStep conv cfg2 (tzOf cfg2)) ⟨st, 0, [], []⟩ with
          synced := [], removed := [] }).store =
      applyOps (syncOps conv cfg2 (tzOf cfg2) m3us epgs) st ∧
    (epgs.foldl (syncEpgStep conv cfg2 (tzOf cfg2))
        { m3us.foldl (syncM3uStep conv cfg2 (tzOf cfg2)) ⟨st, 0, [], []⟩ with
          synced := [], removed := [] }).created =
      createdCount (syncOps conv cfg2 (tzOf cfg2) m3us epgs) st := by
  obtain ⟨hst1, hcr1⟩ :=
    syncFoldM3u conv cfg2 (tzOf cfg2) m3us ⟨st, 0, [], []⟩
  obtain ⟨hst2, hcr2⟩ :=
    syncFoldEpg conv cfg2 (tzOf cfg2) epgs
      { m3us.foldl (syncM3uStep conv cfg2 (tzOf cfg2)) ⟨st, 0, [], []⟩ with
        synced := [], removed := [] }
  constructor
  · rw [hst2]
    show applyOps _ (m3us.foldl (syncM3uStep conv cfg2 (tzOf cfg2))
      ⟨st, 0, [], []⟩).store = _
    rw [hst1, syncOps, applyOps_append]
  · rw [hcr2]
    have e1 : ({ m3us.foldl (syncM3uStep conv cfg2 (tzOf cfg2)) ⟨st, 0, [], []⟩ with
        synced := [], removed := [] } : SyncAcc).created =
      (m3us.foldl (syncM3uStep conv cfg2 (tzOf cfg2)) ⟨st, 0, [], []⟩).created := rfl
    have e2 : ({ m3us.foldl (syncM3uStep conv cfg2 (tzOf cfg2)) ⟨st, 0, [], []⟩ with
        synced := [], removed := [] } : SyncAcc).store =
      (m3us.foldl (syncM3uStep conv cfg2 (tzOf cfg2)) ⟨st, 0, [], []⟩).store := rfl
    rw [e1, e2, hcr1, hst1]
    have e3 : (⟨st, 0, [], []⟩ : SyncAcc).created = 0 := rfl
    have e4 : (⟨st, 0, [], []⟩ : SyncAcc).store = st := rfl
    rw [e3, e4, syncOps, createdCount_append]
    omega

/-- A non-early-exit sync run is exactly its operation run. -/
theorem syncSchedules_char (conv : Conv) (m3us epgs : List Source)
    (settings saved : Config) (st : Store)
    (hne : (if settings.isEmpty then saved else settings).isEmpty = false) :
    (syncSchedules conv m3us epgs settings saved st).2.store =
      applyOps (syncOps conv (if settings.isEmpty then saved else settings)
        (tzOf (if settings.isEmpty then saved else settings)) m3us epgs) st ∧
    (syncSchedules conv m3us epgs settings saved st).2.created =
      createdCount (syncOps conv (if settings.isEmpty then saved else settings)
        (tzOf (if settings.isEmpty then saved else settings)) m3us epgs) st := by
  obtain ⟨hb1, hb2⟩ := syncBody_char conv
    (if settings.isEmpty then saved else settings) m3us epgs st
  constructor
  · rw [← hb1]
    unfold syncSchedules syncSchedulesCore
    rw [hne]
    rfl
  · rw [← hb2]
    unfold syncSchedules syncSchedulesCore
    rw [hne]
    rfl

theorem m3uKey_inj {i j : Nat} (h : m3uKey i = m3uKey j) :
    (Nat.repr i).data = (Nat.repr j).data := by
  unfold m3uKey at h
  exact List.append_cancel_left h

theorem epgKey_inj {i j : Nat} (h : epgKey i = epgKey j) :
    (Nat.repr i).data = (Nat.repr j).data := by
  unfold epgKey at h
  exact List.append_cancel_left h

theorem m3uKey_ne_epgKey (i j : Nat) : m3uKey i ≠ epgKey j := by
  intro h
  unfold m3uKey epgKey at h
  have := (List.append_inj h (by decide)).1
  exact absurd this (by decide)

theorem m3uOp_keyOf (conv : Conv) (cfg : Config) (tz : String) (s : Source) :
    keyOf (m3uOp conv cfg tz s) = some (m3uKey s.id) ∨
      m3uOp conv cfg tz s = .skip := by
  unfold m3uOp
  by_cases h1 : (truthy (cfgGetD cfg (m3uEnabledKey s.id) (.bool false)) &&
      !(schedOf cfg (m3uSchedKey s.id)).isEmpty) = true
  · by_cases h2 : validateCron (schedOf cfg (m3uSchedKey s.id)) = true
    · rw [if_pos h1, if_pos h2]
      exact .inl rfl
    · rw [if_pos h1, if_neg h2]
      exact .inr rfl
  · rw [if_neg h1]
    exact .inl rfl

theorem epgOp_keyOf (conv : Conv) (cfg : Config) (tz : String) (s : Source) :
    keyOf (epgOp conv cfg tz s) = some (epgKey s.id) ∨
      epgOp conv cfg tz s = .skip := by
  unfold epgOp
  by_cases h1 : (truthy (cfgGetD cfg (epgEnabledKey s.id) (.bool false)) &&
      !(schedOf cfg (epgSchedKey s.id)).isEmpty) = true
  · by_cases h2 : validateCron (schedOf cfg (epgSchedKey s.id)) = true
    · rw [if_pos h1, if_pos h2]
      exact .inl rfl
    · rw [if_pos h1, if_neg h2]
      exact .inr rfl
  · rw [if_neg h1]
    exact .inl rfl

theorem m3uOp_ups_key {conv : Conv} {cfg : Config} {tz : String} {s : Source}
    {k : Key} {t : Task} (h : m3uOp conv cfg tz s = .ups k t) :
    k = m3uKey s.id := by
  unfold m3uOp at h
  by_cases h1 : (truthy (cfgGetD cfg (m3uEnabledKey s.id) (.bool false)) &&
      !(schedOf cfg (m3uSchedKey s.id)).isEmpty) = true
  · by_cases h2 : validateCron (schedOf cfg (m3uSchedKey s.id)) = true
    · rw [if_pos h1, if_pos h2] at h
      cases h
      rfl
    · rw [if_pos h1, if_neg h2] at h
      cases h
  · rw [if_neg h1] at h
    cases h

theorem epgOp_ups_key {conv : Conv} {cfg : Config} {tz : String} {s : Source}
    {k : Key} {t : Task} (h : epgOp conv cfg tz s = .ups k t) :
    k = epgKey s.id := by
  unfold epgOp at h
  by_cases h1 : (truthy (cfgGetD cfg (epgEnabledKey s.id) (.bool false)) &&
      !(schedOf cfg (epgSchedKey s.id)).isEmpty) = true
  · by_cases h2 : validateCron (schedOf cfg (epgSchedKey s.id)) = true
    · rw [if_pos h1, if_pos h2] at h
      cases h
      rfl
    · rw [if_pos h1, if_neg h2] at h
      cases h
  · rw [if_neg h1] at h
    cases h

/-- Whether a source's operation is an upsert depends on the source only
through its key (everything it reads is derived from the id's decimal
representation). -/
theorem m3uOp_class (conv : Conv) (cfg : Config) (tz : String)
    {s1 s2 : Source} (h : m3uKey s1.id = m3uKey s2.id) :
    isUps (m3uOp conv cfg tz s1) = isUps (m3uOp conv cfg tz s2) := by
  have hr := m3uKey_inj h
  have he : m3uEnabledKey s1.id = m3uEnabledKey s2.id := by
    unfold m3uEnabledKey
    rw [hr]
  have hs : m3uSchedKey s1.id = m3uSchedKey s2.id := by
    unfold m3uSchedKey
    rw [hr]
  unfold m3uOp
  rw [he, hs]
  by_cases h1 : (truthy (cfgGetD cfg (m3uEnabledKey s2.id) (.bool false)) &&
      !(schedOf cfg (m3uSchedKey s2.id)).isEmpty) = true
  · by_cases h2 : validateCron (schedOf cfg (m3uSchedKey s2.id)) = true
    · simp [h1, h2, isUps]
    · simp [h1, h2]
  · simp [h1, isUps]

theorem epgOp_class (conv : Conv) (cfg : Config) (tz : String)
    {s1 s2 : Source} (h : epgKey s1.id = epgKey s2.id) :
    isUps (epgOp conv cfg tz s1) = isUps (epgOp conv cfg tz s2) := by
  have hr := epgKey_inj h
  have he : epgEnabledKey s1.id = epgEnabledKey s2.id := by
    unfold epgEnabledKey
    rw [hr]
  have hs : epgSchedKey s1.id = epgSchedKey s2.id := by
    unfold epgSchedKey
    rw [hr]
  unfold epgOp
  rw [he, hs]
  by_cases h1 : (truthy (cfgGetD cfg (epgEnabledKey s2.id) (.bool false)) &&
      !(schedOf cfg (epgSchedKey s2.id)).isEmpty) = true
  · by_cases h2 : validateCron (schedOf cfg (epgSchedKey s2.id)) = true
    · simp [h1, h2, isUps]
    · simp [h1, h2]
  · simp [h1, isUps]

/-- The operations of one sync pass never mix an upsert and a delete on
the same key. -/
theorem syncOps_consistent (conv : Conv) (cfg : Config) (tz : String)
    (m3us epgs : List Source) : Consistent (syncOps conv cfg tz m3us epgs) := by
  intro k t hm o ho hk
  rcases List.mem_append.mp hm with hm | hm <;>
    rcases List.mem_append.mp ho with ho | ho
  · obtain ⟨s1, hs1, he1⟩ := List.mem_map.mp hm
    obtain ⟨s2, hs2, he2⟩ := List.mem_map.mp ho
    subst he2
    have hk1 : k = m3uKey s1.id := m3uOp_ups_key he1
    rcases m3uOp_keyOf conv cfg tz s2 with h2 | h2
    · rw [h2] at hk
      have h3 : m3uKey s2.id = k := Option.some.inj hk
      have h4 : m3uKey s2.id = m3uKey s1.id := h3.trans hk1
      rw [m3uOp_class conv cfg tz h4, he1]
      rfl
    · rw [h2] at hk
      simp [keyOf] at hk
  · obtain ⟨s1, hs1, he1⟩ := List.mem_map.mp hm
    obtain ⟨s2, hs2, he2⟩ := List.mem_map.mp ho
    subst he2
    have hk1 : k = m3uKey s1.id := m3uOp_ups_key he1
    rcases epgOp_keyOf conv cfg tz s2 with h2 | h2
    · rw [h2] at hk
      have h3 : epgKey s2.id = k := Option.some.inj hk
      exact absurd (h3.trans hk1).symm (m3uKey_ne_epgKey s1.id s2.id)
    · rw [h2] at hk
      simp [keyOf] at hk
  · obtain ⟨s1, hs1, he1⟩ := List.mem_map.mp hm
    obtain ⟨s2, hs2, he2⟩ := List.mem_map.mp ho
    subst he2
    have hk1 : k = epgKey s1.id := epgOp_ups_key he1
    rcases m3uOp_keyOf conv cfg tz s2 with h2 | h2
    · rw [h2] at hk
      have h3 : m3uKey s2.id = k := Option.some.inj hk
      exact absurd (h3.trans hk1) (m3uKey_ne_epgKey s2.id s1.id)
    · rw [h2] at hk
      simp [keyOf] at hk
  · obtain ⟨s1, hs1, he1⟩ := List.mem_map.mp hm
    obtain ⟨s2, hs2, he2⟩ := List.mem_map.mp ho
    subst he2
    have hk1 : k = epgKey s1.id := epgOp_ups_key he1
    rcases epgOp_keyOf conv cfg tz s2 with h2 | h2
    · rw [h2] at hk
      have h3 : epgKey s2.id = k := Option.some.inj hk
      have h4 : epgKey s2.id = epgKey s1.id := h3.trans hk1
      rw [epgOp_class conv cfg tz h4, he1]
      rfl
    · rw [h2] at hk
      simp [keyOf] at hk

/-- C4: reconciling twice with the same catalog, configuration and
converter leaves the persisted schedule state of the first run unchanged,
and the second run's created count is zero — every upsert of the second
run reports `created = false`. -/
theorem reconcile_idempotent_claim (conv : Conv) (m3us epgs : List Source)
    (settings saved : Config) (st : Store) :
    (syncSchedules conv m3us epgs settings saved
        (syncSchedules conv m3us epgs settings saved st).2.store).2.store =
      (syncSchedules conv m3us epgs settings saved st).2.store ∧
    (syncSchedules conv m3us epgs settings saved
        (syncSchedules conv m3us epgs settings saved st).2.store).2.created = 0 := by
  by_cases hemp : (if settings.isEmpty then saved else settings).isEmpty = true
  · have h1 : ∀ s0 : Store, syncSchedules conv m3us epgs settings saved s0 =
        (⟨false, noSavedSettingsMsg⟩, ⟨s0, 0, [], []⟩) := by
      intro s0
      unfold syncSchedules syncSchedulesCore
      rw [hemp]
      rfl
    have h3 := h1 ((syncSchedules conv m3us epgs settings saved st).2.store)
    constructor
    · rw [h3]
    · rw [h3]
  · have hne : (if settings.isEmpty then saved else settings).isEmpty = false :=
      Bool.eq_false_iff.mpr hemp
    obtain ⟨ha1, hc1⟩ := syncSchedules_char conv m3us epgs settings saved st hne
    obtain ⟨ha2, hc2⟩ := syncSchedules_char conv m3us epgs settings saved
      ((syncSchedules conv m3us epgs settings saved st).2.store) hne
    constructor
    · rw [ha2, ha1, applyOps_idem]
    · rw [hc2, ha1, createdCount_replay _ _
        (syncOps_consistent conv (if settings.isEmpty then saved else settings)
          (tzOf (if settings.isEmpty then saved else settings)) m3us epgs)]

end EpgRefresh
